import Mathlib

/-
Verification of the task queue and worker subsystem of the index-tts API
server (src/api/task_manager.py), as a shallow embedding in Lean 4.

Modelling conventions:
- Python floats (timestamps) are modelled as rationals; the wall clock is
  assumed monotone and nonnegative.
- Python dicts are modelled as insertion-ordered association lists
  (CPython dicts preserve insertion order, and overwriting a key keeps
  its position).
- The JSON documents written by TaskManager._save_tasks and read by
  TaskManager._load_tasks are modelled by the JValue type below.
- TTSTask.from_dict / BatchTTSTask.from_dict raise (KeyError etc.) on a
  record whose shape is wrong; this is modelled by returning none.  The
  embedding additionally requires the stored "status" string to be one of
  the four TaskStatus values and stored fields to have the types the
  serializer produces; to_dict only ever produces such records.
- uuid.uuid4() (batch task ids) is modelled as an oracle ug : Nat -> String
  of successive draws, with the idealization of a random UUID stated as
  hypotheses: distinct draws differ, and no draw has the "task_<int>_<int>"
  shape produced for single tasks.
-/

namespace IndexTTSQueue

/-- Task lifecycle states, from the TaskStatus enum in task_manager.py. -/
inductive TaskStatus where
  | pending
  | processing
  | completed
  | failed
deriving DecidableEq, Repr

/-- Serialized string value of a status, as the str-valued Python enum. -/
def TaskStatus.str : TaskStatus → String
  | .pending => "pending"
  | .processing => "processing"
  | .completed => "completed"
  | .failed => "failed"

/-- Parse a serialized status string back to a TaskStatus. -/
def statusOfStr (s : String) : Option TaskStatus :=
  if s = "pending" then some .pending
  else if s = "processing" then some .processing
  else if s = "completed" then some .completed
  else if s = "failed" then some .failed
  else none

/-- JSON-like values as written by json.dump in _save_tasks. -/
inductive JValue where
  | null
  | jstr (s : String)
  | jnum (q : ℚ)
  | jobj (fields : List (String × JValue))
  | jarr (items : List JValue)

/-- Lookup of a key in a JSON object (Python dict indexing / .get). -/
def jget (fields : List (String × JValue)) (k : String) : Option JValue :=
  (fields.find? (fun p => p.1 == k)).map (fun p => p.2)

/-- Single TTS task record (class TTSTask). -/
structure TTSTask where
  task_id : String
  text : String
  prompt_path : String
  output_path : String
  infer_mode : String
  status : TaskStatus
  start_time : Option ℚ
  end_time : Option ℚ
  error : Option String
deriving DecidableEq, Repr

/-- Constructor TTSTask.__init__: a fresh pending record. -/
def TTSTask.new (task_id text prompt_path output_path infer_mode : String) :
    TTSTask :=
  { task_id := task_id, text := text, prompt_path := prompt_path,
    output_path := output_path, infer_mode := infer_mode,
    status := .pending, start_time := none, end_time := none, error := none }

/-- Batch TTS task record (class BatchTTSTask).  speeches is the ordered
filename-to-text mapping; errors is the ordered list of
(filename, error-message) pairs. -/
structure BatchTTSTask where
  task_id : String
  speeches : List (String × String)
  prompt_path : String
  output_directory : String
  infer_mode : String
  status : TaskStatus
  start_time : Option ℚ
  end_time : Option ℚ
  total_files : Nat
  processed_files : Nat
  errors : List (String × String)
deriving DecidableEq, Repr

/-- Constructor BatchTTSTask.__init__: a fresh pending batch record with
total_files = len(speeches). -/
def BatchTTSTask.new (task_id : String) (speeches : List (String × String))
    (prompt_path output_directory infer_mode : String) : BatchTTSTask :=
  { task_id := task_id, speeches := speeches, prompt_path := prompt_path,
    output_directory := output_directory, infer_mode := infer_mode,
    status := .pending, start_time := none, end_time := none,
    total_files := speeches.length, processed_files := 0, errors := [] }

/-- Tagged union of the two record variants held in TaskManager.tasks. -/
inductive Task where
  | single (t : TTSTask)
  | batch (b : BatchTTSTask)
deriving DecidableEq, Repr

/-- Serialization of an optional timestamp (None or float). -/
def jOfOptNum : Option ℚ → JValue
  | none => JValue.null
  | some q => JValue.jnum q

/-- Parse an optional timestamp back. -/
def optNumOfJ : JValue → Option (Option ℚ)
  | JValue.null => some none
  | JValue.jnum q => some (some q)
  | _ => none

/-- Serialization of an optional string (None or str). -/
def jOfOptStr : Option String → JValue
  | none => JValue.null
  | some s => JValue.jstr s

/-- Parse an optional string back. -/
def optStrOfJ : JValue → Option (Option String)
  | JValue.null => some none
  | JValue.jstr s => some (some s)
  | _ => none

/-- Parse a string field. -/
def strOfJ : JValue → Option String
  | JValue.jstr s => some s
  | _ => none

/-- Parse a nonnegative integer field (a JSON number with denominator 1). -/
def natOfJ : JValue → Option Nat
  | JValue.jnum q => if q.den = 1 ∧ 0 ≤ q.num then some q.num.toNat else none
  | _ => none

/-- TTSTask.to_dict. -/
def TTSTask.to_dict (t : TTSTask) : List (String × JValue) :=
  [("task_id", JValue.jstr t.task_id),
   ("text", JValue.jstr t.text),
   ("prompt_path", JValue.jstr t.prompt_path),
   ("output_path", JValue.jstr t.output_path),
   ("infer_mode", JValue.jstr t.infer_mode),
   ("status", JValue.jstr t.status.str),
   ("start_time", jOfOptNum t.start_time),
   ("end_time", jOfOptNum t.end_time),
   ("error", jOfOptStr t.error)]

/-- TTSTask.from_dict.  Returns none where the Python classmethod would
raise on a record of the wrong shape. -/
def TTSTask.from_dict (d : List (String × JValue)) : Option TTSTask := do
  let task_id ← (jget d "task_id").bind strOfJ
  let text ← (jget d "text").bind strOfJ
  let prompt_path ← (jget d "prompt_path").bind strOfJ
  let output_path ← (jget d "output_path").bind strOfJ
  let infer_mode ← (jget d "infer_mode").bind strOfJ
  let status ← ((jget d "status").bind strOfJ).bind statusOfStr
  let start_time ← (jget d "start_time").bind optNumOfJ
  let end_time ← (jget d "end_time").bind optNumOfJ
  let error ← (jget d "error").bind optStrOfJ
  pure { TTSTask.new task_id text prompt_path output_path infer_mode with
         status := status, start_time := start_time, end_time := end_time,
         error := error }

/-- Serialization of the speeches mapping (a JSON object of strings). -/
def jOfSpeeches (sp : List (String × String)) : JValue :=
  JValue.jobj (sp.map (fun p => (p.1, JValue.jstr p.2)))

/-- Parse the fields of the speeches mapping back, failing on the first
non-string value. -/
def speechesOfJList : List (String × JValue) → Option (List (String × String))
  | [] => some []
  | (k, v) :: rest =>
      match strOfJ v with
      | none => none
      | some s => (speechesOfJList rest).map (fun l => (k, s) :: l)

/-- Parse the speeches mapping back. -/
def speechesOfJ : JValue → Option (List (String × String))
  | JValue.jobj fields => speechesOfJList fields
  | _ => none

/-- Serialization of the batch errors list (a JSON array of
two-key objects). -/
def jOfErrors (es : List (String × String)) : JValue :=
  JValue.jarr (es.map (fun p =>
    JValue.jobj [("filename", JValue.jstr p.1), ("error", JValue.jstr p.2)]))

/-- Parse one batch error entry back. -/
def errorOfJ : JValue → Option (String × String)
  | JValue.jobj fields => do
      let f ← (jget fields "filename").bind strOfJ
      let e ← (jget fields "error").bind strOfJ
      pure (f, e)
  | _ => none

/-- Parse the items of the batch errors list back, failing on the first
malformed entry. -/
def errorsOfJList : List JValue → Option (List (String × String))
  | [] => some []
  | v :: rest =>
      match errorOfJ v with
      | none => none
      | some p => (errorsOfJList rest).map (fun l => p :: l)

/-- Parse the batch errors list back. -/
def errorsOfJ : JValue → Option (List (String × String))
  | JValue.jarr items => errorsOfJList items
  | _ => none

/-- BatchTTSTask.to_dict, including the task_type discriminator. -/
def BatchTTSTask.to_dict (b : BatchTTSTask) : List (String × JValue) :=
  [("task_id", JValue.jstr b.task_id),
   ("speeches", jOfSpeeches b.speeches),
   ("prompt_path", JValue.jstr b.prompt_path),
   ("output_directory", JValue.jstr b.output_directory),
   ("infer_mode", JValue.jstr b.infer_mode),
   ("status", JValue.jstr b.status.str),
   ("start_time", jOfOptNum b.start_time),
   ("end_time", jOfOptNum b.end_time),
   ("total_files", JValue.jnum b.total_files),
   ("processed_files", JValue.jnum b.processed_files),
   ("errors", jOfErrors b.errors),
   ("task_type", JValue.jstr "batch")]

/-- BatchTTSTask.from_dict.  Builds the record through the constructor and
then overwrites the lifecycle fields, as the Python classmethod does. -/
def BatchTTSTask.from_dict (d : List (String × JValue)) :
    Option BatchTTSTask := do
  let task_id ← (jget d "task_id").bind strOfJ
  let speeches ← (jget d "speeches").bind speechesOfJ
  let prompt_path ← (jget d "prompt_path").bind strOfJ
  let output_directory ← (jget d "output_directory").bind strOfJ
  let infer_mode ← (jget d "infer_mode").bind strOfJ
  let status ← ((jget d "status").bind strOfJ).bind statusOfStr
  let start_time ← (jget d "start_time").bind optNumOfJ
  let end_time ← (jget d "end_time").bind optNumOfJ
  let total_files ← (jget d "total_files").bind natOfJ
  let processed_files ← (jget d "processed_files").bind natOfJ
  let errors ← (jget d "errors").bind errorsOfJ
  pure { BatchTTSTask.new task_id speeches prompt_path output_directory
           infer_mode with
         status := status, start_time := start_time, end_time := end_time,
         total_files := total_files, processed_files := processed_files,
         errors := errors }

/-- Serialization of one record, dispatching on the variant. -/
def Task.to_dict : Task → List (String × JValue)
  | Task.single t => t.to_dict
  | Task.batch b => b.to_dict

/-- Does a serialized record carry the batch discriminator?  Models the
check task_data.get("task_type") == "batch" in _load_tasks. -/
def isBatchTag : Option JValue → Bool
  | some (JValue.jstr s) => s == "batch"
  | _ => false

/-- Parse one serialized record into the appropriate variant, as the body
of the loop in TaskManager._load_tasks does; none models an exception. -/
def parseEntry : JValue → Option Task
  | JValue.jobj d =>
      if isBatchTag (jget d "task_type")
      then (BatchTTSTask.from_dict d).map Task.batch
      else (TTSTask.from_dict d).map Task.single
  | _ => none

/-- Parse every entry of the serialized registry; none as soon as one
entry fails, since the exception aborts the whole loop. -/
def loadEntries : List (String × JValue) → Option (List (String × Task))
  | [] => some []
  | (tid, td) :: rest =>
      match parseEntry td with
      | none => none
      | some t => (loadEntries rest).map (fun l => (tid, t) :: l)

/-- TaskManager._save_tasks: the JSON document written to the tasks file
from a registry snapshot. -/
def saveTasks (reg : List (String × Task)) : JValue :=
  JValue.jobj (reg.map (fun p => (p.1, JValue.jobj p.2.to_dict)))

/-- TaskManager._load_tasks: none models an absent file (empty registry);
a present file whose parse raises anywhere yields an empty registry,
because the except handler reassigns self.tasks = \x7b\x7d. -/
def loadTasks (file : Option JValue) : List (String × Task) :=
  match file with
  | none => []
  | some (JValue.jobj entries) => (loadEntries entries).getD []
  | some _ => []

/-- Round-half-to-even to an integer, as Python's built-in round on an
exactly represented value. -/
def rhe (q : ℚ) : ℤ :=
  if q - ⌊q⌋ < 1 / 2 then ⌊q⌋
  else if 1 / 2 < q - ⌊q⌋ then ⌊q⌋ + 1
  else if 2 ∣ ⌊q⌋ then ⌊q⌋ else ⌊q⌋ + 1

/-- Python round(x, 2): round to two decimal places. -/
def round2 (q : ℚ) : ℚ := (rhe (q * 100) : ℚ) / 100

/-- Derived property TTSTask.process_time. -/
def TTSTask.process_time (t : TTSTask) : Option ℚ :=
  match t.start_time with
  | none => none
  | some s =>
    match t.end_time with
    | none => none
    | some e => some (round2 (e - s))

/-- Derived property BatchTTSTask.process_time (same computation). -/
def BatchTTSTask.process_time (b : BatchTTSTask) : Option ℚ :=
  match b.start_time with
  | none => none
  | some s =>
    match b.end_time with
    | none => none
    | some e => some (round2 (e - s))

/-- Derived process_time of either variant. -/
def Task.process_time : Task → Option ℚ
  | Task.single t => t.process_time
  | Task.batch b => b.process_time

/-- Decimal digit character, as produced by Python str on 0..9. -/
def digitChr (d : Nat) : Char := Char.ofNat (48 + d)

/-- Fuel-driven core of the decimal rendering: most significant digit
first, empty on zero; the fuel bounds the number of divisions by 10. -/
def natCharsCore : Nat → Nat → List Char
  | 0, _ => []
  | fuel + 1, n =>
      if n = 0 then []
      else natCharsCore fuel (n / 10) ++ [digitChr (n % 10)]

/-- Decimal rendering of a natural number as a character list
(Python str(n)). -/
def natChars (n : Nat) : List Char :=
  if n = 0 then ['0'] else natCharsCore n n

/-- Decimal rendering of a natural number as a string. -/
def natStr (n : Nat) : String := String.mk (natChars n)

/-- Single-task id generation in TaskManager.create_task:
f-string "task_\x7bint(time.time())\x7d_\x7blen(self.tasks)\x7d".  The
truncated timestamp is a Nat because the modelled clock is nonnegative. -/
def mkSingleId (tm n : Nat) : String :=
  "task_" ++ natStr tm ++ "_" ++ natStr n

/-- Status of either record variant. -/
def Task.statusOf : Task → TaskStatus
  | Task.single t => t.status
  | Task.batch b => b.status

/-- Start time of either record variant. -/
def Task.startOf : Task → Option ℚ
  | Task.single t => t.start_time
  | Task.batch b => b.start_time

/-- End time of either record variant. -/
def Task.endOf : Task → Option ℚ
  | Task.single t => t.end_time
  | Task.batch b => b.end_time

/-- Outcome of one attempt of TaskManager._process_task: the lazy model
initialization raises, the engine call succeeds, or the engine call
raises with a message. -/
inductive SingleOutcome where
  | initFail (msg : String)
  | engineOk
  | engineFail (msg : String)

/-- TaskManager._process_task on the record it was handed, given the
engine outcome and the two wall-clock readings t1 (start) and t2 (end).
When initialization fails, start_time is never assigned and the except
handler records the error, FAILED, and end_time. -/
def processTask (t : TTSTask) (o : SingleOutcome) (t1 t2 : ℚ) : TTSTask :=
  match o with
  | .initFail m =>
      { t with error := some m, status := .failed, end_time := some t2 }
  | .engineOk =>
      { t with start_time := some t1, end_time := some t2,
               status := .completed }
  | .engineFail m =>
      { t with start_time := some t1, error := some m, status := .failed,
               end_time := some t2 }

/-- Per-item loop of TaskManager._process_batch_task: given the items in
insertion order and one engine result per item (none = success,
some msg = exception), returns the number of successfully processed files
and the error entries appended, in order. -/
def processItems : List (String × String) → List (Option String) →
    Nat × List (String × String)
  | [], _ => (0, [])
  | _ :: _, [] => (0, [])
  | (fn, _) :: items, r :: rs =>
      let rest := processItems items rs
      match r with
      | none => (rest.1 + 1, rest.2)
      | some msg => (rest.1, (fn, msg) :: rest.2)

/-- Outcome of one attempt of TaskManager._process_batch_task: model
initialization raises before start_time is set, output-directory creation
raises after it, or the per-item loop runs with the given results. -/
inductive BatchOutcome where
  | initFail (msg : String)
  | mkdirFail (msg : String)
  | run (results : List (Option String))

/-- TaskManager._process_batch_task on the record it was handed.  An
exception escaping the loop appends the synthetic ("batch_process", msg)
entry and forces FAILED; otherwise the terminal status is COMPLETED when
processed_files == total_files, COMPLETED when processed_files > 0, and
FAILED when no file was processed. -/
def processBatchTask (b : BatchTTSTask) (o : BatchOutcome) (t1 t2 : ℚ) :
    BatchTTSTask :=
  match o with
  | .initFail m =>
      { b with errors := b.errors ++ [("batch_process", m)],
               status := .failed, end_time := some t2 }
  | .mkdirFail m =>
      { b with start_time := some t1,
               errors := b.errors ++ [("batch_process", m)],
               status := .failed, end_time := some t2 }
  | .run results =>
      let pe := processItems b.speeches results
      let b' := { b with start_time := some t1,
                         processed_files := b.processed_files + pe.1,
                         errors := b.errors ++ pe.2,
                         end_time := some t2 }
      if b'.processed_files = b'.total_files then
        { b' with status := .completed }
      else if 0 < b'.processed_files then
        { b' with status := .completed }
      else
        { b' with status := .failed }

/-- Insertion into the registry dict: overwriting a present key keeps its
position, a fresh key is appended (CPython dict semantics). -/
def dictInsert (k : String) (v : Task) (l : List (String × Task)) :
    List (String × Task) :=
  if l.any (fun p => p.1 == k) then
    l.map (fun p => if p.1 == k then (k, v) else p)
  else l ++ [(k, v)]

/-- Registry lookup (self.tasks.get(task_id)): the value stored under the
key, scanning in insertion order. -/
def lookupTask : List (String × Task) → String → Option Task
  | [], _ => none
  | p :: rest, tid => if p.1 == tid then some p.2 else lookupTask rest tid

/-- In-place update of the record stored under a key. -/
def updateKey (k : String) (f : Task → Task) (l : List (String × Task)) :
    List (String × Task) :=
  l.map (fun p => if p.1 == k then (p.1, f p.2) else p)

/-- The worker's scan in _worker: the first record in insertion order
whose status is PENDING, if any. -/
def scanPending : List (String × Task) → Option String
  | [] => none
  | (tid, t) :: rest =>
      if t.statusOf = .pending then some tid else scanPending rest

/-- Claiming a record: set its status to PROCESSING (and nothing else;
in particular start_time is not touched here). -/
def claimTask : Task → Task
  | Task.single t => Task.single { t with status := .processing }
  | Task.batch b => Task.batch { b with status := .processing }

/-- Global state of the task manager: the in-memory registry, the durable
tasks file (none while it has never been written), the wall clock, the
number of uuid4 draws made so far, and the worker's claimed task if it is
between claiming and processing. -/
structure SysState where
  tasks : List (String × Task)
  file : Option JValue
  now : ℚ
  uuidCtr : Nat
  worker : Option String

/-- The durable file after a mutation: _save_tasks rewrites it with the
current snapshot, and a failed write (logged and swallowed) leaves the
previous contents. -/
def maybeSave (ok : Bool) (tasks : List (String × Task))
    (old : Option JValue) : Option JValue :=
  if ok then some (saveTasks tasks) else old

/-- In-process operations of the system: producer creations, the worker
claiming the first pending record, and the worker processing the claimed
record.  Each mutating operation calls _save_tasks, whose write succeeds
or fails according to the sv flag.  The wall clock never decreases. -/
inductive OpStep (ug : Nat → String) : SysState → SysState → Prop
  | createSingle (s : SysState) (text pp op im : String) (t' : ℚ)
      (sv : Bool) :
      s.now ≤ t' →
      OpStep ug s
        { tasks := dictInsert (mkSingleId (Int.toNat ⌊t'⌋) s.tasks.length)
            (Task.single (TTSTask.new
              (mkSingleId (Int.toNat ⌊t'⌋) s.tasks.length) text pp op im))
            s.tasks,
          file := maybeSave sv
            (dictInsert (mkSingleId (Int.toNat ⌊t'⌋) s.tasks.length)
              (Task.single (TTSTask.new
                (mkSingleId (Int.toNat ⌊t'⌋) s.tasks.length) text pp op im))
              s.tasks) s.file,
          now := t', uuidCtr := s.uuidCtr, worker := s.worker }
  | createBatch (s : SysState) (sp : List (String × String))
      (pp od im : String) (t' : ℚ) (sv : Bool) :
      s.now ≤ t' →
      OpStep ug s
        { tasks := dictInsert (ug s.uuidCtr)
            (Task.batch (BatchTTSTask.new (ug s.uuidCtr) sp pp od im))
            s.tasks,
          file := maybeSave sv
            (dictInsert (ug s.uuidCtr)
              (Task.batch (BatchTTSTask.new (ug s.uuidCtr) sp pp od im))
              s.tasks) s.file,
          now := t', uuidCtr := s.uuidCtr + 1, worker := s.worker }
  | claim (s : SysState) (tid : String) (sv : Bool) :
      s.worker = none →
      scanPending s.tasks = some tid →
      OpStep ug s
        { tasks := updateKey tid claimTask s.tasks,
          file := maybeSave sv (updateKey tid claimTask s.tasks) s.file,
          now := s.now, uuidCtr := s.uuidCtr, worker := some tid }
  | runSingle (s : SysState) (tid : String) (t : TTSTask)
      (o : SingleOutcome) (t1 t2 : ℚ) (sv : Bool) :
      s.worker = some tid →
      lookupTask s.tasks tid = some (Task.single t) →
      s.now ≤ t1 → t1 ≤ t2 →
      OpStep ug s
        { tasks := updateKey tid
            (fun _ => Task.single (processTask t o t1 t2)) s.tasks,
          file := maybeSave sv
            (updateKey tid (fun _ => Task.single (processTask t o t1 t2))
              s.tasks) s.file,
          now := t2, uuidCtr := s.uuidCtr, worker := none }
  | runBatch (s : SysState) (tid : String) (b : BatchTTSTask)
      (o : BatchOutcome) (t1 t2 : ℚ) (sv : Bool) :
      s.worker = some tid →
      lookupTask s.tasks tid = some (Task.batch b) →
      s.now ≤ t1 → t1 ≤ t2 →
      (∀ res, o = BatchOutcome.run res → res.length = b.speeches.length) →
      OpStep ug s
        { tasks := updateKey tid
            (fun _ => Task.batch (processBatchTask b o t1 t2)) s.tasks,
          file := maybeSave sv
            (updateKey tid (fun _ => Task.batch (processBatchTask b o t1 t2))
              s.tasks) s.file,
          now := t2, uuidCtr := s.uuidCtr, worker := none }

/-- Store-lifetime steps: an in-process operation, or a process restart,
which rebuilds the registry from the durable file via _load_tasks,
restarts the worker idle, and keeps drawing fresh uuid4 values. -/
inductive Step (ug : Nat → String) : SysState → SysState → Prop
  | op {s s' : SysState} : OpStep ug s s' → Step ug s s'
  | restart (s : SysState) (t' : ℚ) :
      s.now ≤ t' →
      Step ug s
        { tasks := loadTasks s.file, file := s.file, now := t',
          uuidCtr := s.uuidCtr, worker := none }

/-- The very first start of the store: no durable file, empty registry. -/
def initState : SysState :=
  { tasks := [], file := none, now := 0, uuidCtr := 0, worker := none }

/-- States reachable over the lifetime of the store. -/
def Reach (ug : Nat → String) (s : SysState) : Prop :=
  Relation.ReflTransGen (Step ug) initState s

/-- Idealization of uuid4: distinct draws differ, and no draw collides
with the single-task id shape. -/
def UGOk (ug : Nat → String) : Prop :=
  (∀ i j, ug i = ug j → i = j) ∧ (∀ i tm n, ug i ≠ mkSingleId tm n)

/-- A record that the worker has not yet touched: no timestamps, no
recorded error, and (for a batch) no progress and the creation-time
total_files.  Every freshly created record is untouched, and a record
stays untouched until the worker processes it. -/
def Untouched : Task → Prop
  | Task.single t => t.start_time = none ∧ t.end_time = none ∧
      t.error = none
  | Task.batch b => b.start_time = none ∧ b.end_time = none ∧
      b.processed_files = 0 ∧ b.errors = [] ∧
      b.total_files = b.speeches.length

/-- Shape of a registry key: a single record's key is a task_<t>_<n> id
whose counter n is below the registry size, a batch record's key is one
of the uuid draws made so far. -/
def KeyOk (ug : Nat → String) (len ctr : Nat) : String × Task → Prop
  | (tid, Task.single _) => ∃ tm n, tid = mkSingleId tm n ∧ n < len
  | (tid, Task.batch _) => ∃ j, j < ctr ∧ tid = ug j

/-- Structural invariant of a registry snapshot. -/
def RegOk (ug : Nat → String) (ctr : Nat) (l : List (String × Task)) :
    Prop :=
  (l.map Prod.fst).Nodup ∧
  (∀ p ∈ l, KeyOk ug l.length ctr p) ∧
  (∀ p ∈ l, p.2.statusOf = TaskStatus.pending → Untouched p.2) ∧
  (∀ p ∈ l, ∀ a c, p.2.startOf = some a → p.2.endOf = some c → a ≤ c)

/-- Between claiming and processing, the worker holds a record that is in
the registry, is PROCESSING, and is otherwise untouched (in particular
its start_time is still unset). -/
def WorkerOk (s : SysState) : Prop :=
  ∀ tid, s.worker = some tid →
    ∃ t, lookupTask s.tasks tid = some t ∧
      t.statusOf = TaskStatus.processing ∧ Untouched t

/-- Master invariant of reachable states: the registry and the registry
recoverable from the durable file are well formed, the worker's claimed
record is sound, and the clock is nonnegative. -/
def Inv (ug : Nat → String) (s : SysState) : Prop :=
  RegOk ug s.uuidCtr s.tasks ∧
  RegOk ug s.uuidCtr (loadTasks s.file) ∧
  WorkerOk s ∧ 0 ≤ s.now

/-- Key tid1 is inserted before key tid2 in the registry. -/
def keyBefore (tid1 tid2 : String) (l : List (String × Task)) : Prop :=
  ∃ l1 t1 l2 t2 l3,
    l = l1 ++ [(tid1, t1)] ++ l2 ++ [(tid2, t2)] ++ l3

/-- In-process executions (no restart in between). -/
def OpSteps (ug : Nat → String) : SysState → SysState → Prop :=
  Relation.ReflTransGen (OpStep ug)

/-- A concrete uuid oracle for witness executions: the i-th draw is a
string of i+1 copies of the letter u. -/
def ugW : Nat → String := fun i => String.mk (List.replicate (i + 1) 'u')

/-- Witness data: id of the first single task created at second 1. -/
def idA : String := mkSingleId 1 0

/-- Witness data: id of a second single task created at second 1. -/
def idA2 : String := mkSingleId 1 1

/-- Witness data: first uuid draw. -/
def idB : String := ugW 0

/-- Witness data: a fresh single task. -/
def taskA : TTSTask := TTSTask.new idA "hello" "p.wav" "out/a.wav" "普通推理"

/-- Witness data: a second fresh single task. -/
def taskF2 : TTSTask := TTSTask.new idA2 "world" "p.wav" "out/b.wav" "普通推理"

/-- Witness data: taskA after the worker claimed it. -/
def taskA1 : TTSTask := { taskA with status := TaskStatus.processing }

/-- Witness data: taskA1 after a failing engine call. -/
def taskA2 : TTSTask :=
  processTask taskA1 (SingleOutcome.engineFail "device busy") 2 3

/-- Witness data: taskA1 after a successful engine call. -/
def taskAok : TTSTask := processTask taskA1 SingleOutcome.engineOk 2 3

/-- Witness state: one fresh single task. -/
def wS1 : SysState :=
  { tasks := [(idA, Task.single taskA)],
    file := some (saveTasks [(idA, Task.single taskA)]),
    now := 1, uuidCtr := 0, worker := none }

/-- Witness state: the single task claimed by the worker. -/
def wS2 : SysState :=
  { tasks := [(idA, Task.single taskA1)],
    file := some (saveTasks [(idA, Task.single taskA1)]),
    now := 1, uuidCtr := 0, worker := some idA }

/-- Witness state: the single task after a failing engine call. -/
def wS3 : SysState :=
  { tasks := [(idA, Task.single taskA2)],
    file := some (saveTasks [(idA, Task.single taskA2)]),
    now := 3, uuidCtr := 0, worker := none }

/-- Witness data: a fresh two-item batch task. -/
def batchB : BatchTTSTask :=
  BatchTTSTask.new idB [("a.wav", "xa"), ("b.wav", "xb")] "p.wav" "outdir"
    "普通推理"

/-- Witness data: the batch task after the worker claimed it. -/
def batchB1 : BatchTTSTask := { batchB with status := TaskStatus.processing }

/-- Witness data: the batch task after a run where the second item
failed. -/
def batchB2 : BatchTTSTask :=
  processBatchTask batchB1 (BatchOutcome.run [none, some "boom"]) 2 3

/-- Witness state: one fresh batch task. -/
def wB1 : SysState :=
  { tasks := [(idB, Task.batch batchB)],
    file := some (saveTasks [(idB, Task.batch batchB)]),
    now := 1, uuidCtr := 1, worker := none }

/-- Witness state: the batch task claimed by the worker. -/
def wB2 : SysState :=
  { tasks := [(idB, Task.batch batchB1)],
    file := some (saveTasks [(idB, Task.batch batchB1)]),
    now := 1, uuidCtr := 1, worker := some idB }

/-- Witness state: the batch task after its run. -/
def wB3 : SysState :=
  { tasks := [(idB, Task.batch batchB2)],
    file := some (saveTasks [(idB, Task.batch batchB2)]),
    now := 3, uuidCtr := 1, worker := none }

/-- Witness data: a fresh zero-item batch task. -/
def batchE : BatchTTSTask :=
  BatchTTSTask.new idB [] "p.wav" "outdir" "普通推理"

/-- Witness data: the zero-item batch task after the worker claimed it. -/
def batchE1 : BatchTTSTask := { batchE with status := TaskStatus.processing }

/-- Witness data: the zero-item batch task after its run. -/
def batchE2 : BatchTTSTask :=
  processBatchTask batchE1 (BatchOutcome.run []) 2 3

/-- Witness state: one fresh zero-item batch task. -/
def wE1 : SysState :=
  { tasks := [(idB, Task.batch batchE)],
    file := some (saveTasks [(idB, Task.batch batchE)]),
    now := 1, uuidCtr := 1, worker := none }

/-- Witness state: the zero-item batch task claimed by the worker. -/
def wE2 : SysState :=
  { tasks := [(idB, Task.batch batchE1)],
    file := some (saveTasks [(idB, Task.batch batchE1)]),
    now := 1, uuidCtr := 1, worker := some idB }

/-- Witness state: the zero-item batch task after its run. -/
def wE3 : SysState :=
  { tasks := [(idB, Task.batch batchE2)],
    file := some (saveTasks [(idB, Task.batch batchE2)]),
    now := 3, uuidCtr := 1, worker := none }

/-- Witness state: two pending single tasks, in creation order. -/
def wF2 : SysState :=
  { tasks := [(idA, Task.single taskA), (idA2, Task.single taskF2)],
    file := some (saveTasks
      [(idA, Task.single taskA), (idA2, Task.single taskF2)]),
    now := 1, uuidCtr := 0, worker := none }

/-- Witness state: the earlier single task claimed first. -/
def wF3 : SysState :=
  { tasks := [(idA, Task.single taskA1), (idA2, Task.single taskF2)],
    file := some (saveTasks
      [(idA, Task.single taskA1), (idA2, Task.single taskF2)]),
    now := 1, uuidCtr := 0, worker := some idA }

/-- Witness state: the earlier single task completed. -/
def wF4 : SysState :=
  { tasks := [(idA, Task.single taskAok), (idA2, Task.single taskF2)],
    file := some (saveTasks
      [(idA, Task.single taskAok), (idA2, Task.single taskF2)]),
    now := 3, uuidCtr := 0, worker := none }

/-- Witness data: the second single task after the worker claimed it. -/
def taskF2p : TTSTask := { taskF2 with status := TaskStatus.processing }

/-- Witness state: the later single task claimed after the earlier one
finished. -/
def wF5 : SysState :=
  { tasks := [(idA, Task.single taskAok), (idA2, Task.single taskF2p)],
    file := some (saveTasks
      [(idA, Task.single taskAok), (idA2, Task.single taskF2p)]),
    now := 3, uuidCtr := 0, worker := some idA2 }

lemma digitChr_injOn :
    ∀ d, d < 10 → ∀ e, e < 10 → digitChr d = digitChr e → d = e := by
  decide

lemma digitChr_ne_underscore : ∀ d, d < 10 → digitChr d ≠ '_' := by decide

lemma natCharsCore_zero (f : Nat) : natCharsCore f 0 = [] := by
  cases f <;> rfl

lemma natCharsCore_eq (f : Nat) : ∀ n, 0 < n → n ≤ f →
    natCharsCore f n = ((Nat.digits 10 n).map digitChr).reverse := by
  induction f with
  | zero => intro n hn hf; omega
  | succ f ih =>
      intro n hn hf
      have hstep : natCharsCore (f + 1) n =
          natCharsCore f (n / 10) ++ [digitChr (n % 10)] := by
        simp only [natCharsCore, if_neg (Nat.pos_iff_ne_zero.mp hn)]
      rw [hstep, Nat.digits_def' (by norm_num : 1 < 10) hn]
      rcases Nat.eq_zero_or_pos (n / 10) with h10 | h10
      · rw [h10, natCharsCore_zero, Nat.digits_zero]
        simp
      · have hlt : n / 10 < n := Nat.div_lt_self hn (by norm_num)
        rw [ih (n / 10) h10 (by omega)]
        simp

lemma natChars_eq (n : Nat) : natChars n =
    if n = 0 then ['0'] else ((Nat.digits 10 n).map digitChr).reverse := by
  by_cases h : n = 0
  · simp [natChars, h]
  · simp only [natChars, if_neg h]
    exact natCharsCore_eq n n (Nat.pos_iff_ne_zero.mpr h) le_rfl

lemma underscore_notMem_natChars (n : Nat) : '_' ∉ natChars n := by
  rw [natChars_eq]
  split
  · decide
  · intro hmem
    rw [List.mem_reverse, List.mem_map] at hmem
    obtain ⟨d, hd, hchr⟩ := hmem
    exact digitChr_ne_underscore d
      (Nat.digits_lt_base (by norm_num) hd) hchr

lemma mapDigit_inj : ∀ l1 l2 : List Nat, (∀ d ∈ l1, d < 10) →
    (∀ d ∈ l2, d < 10) → l1.map digitChr = l2.map digitChr → l1 = l2 := by
  intro l1
  induction l1 with
  | nil => intro l2 _ _ h; cases l2 <;> simp_all
  | cons c l1 ih =>
      intro l2 h1 h2 h
      cases l2 with
      | nil => simp_all
      | cons d l2 =>
          simp only [List.map_cons, List.cons.injEq] at h
          have hc := digitChr_injOn c (h1 c (by simp)) d (h2 d (by simp)) h.1
          have := ih l2 (fun e he => h1 e (by simp [he]))
            (fun e he => h2 e (by simp [he])) h.2
          simp [hc, this]

lemma natChars_inj {m n : Nat} (h : natChars m = natChars n) : m = n := by
  rw [natChars_eq, natChars_eq] at h
  by_cases hm : m = 0 <;> by_cases hn : n = 0
  · omega
  · exfalso
    rw [if_pos hm, if_neg hn, eq_comm, List.reverse_eq_iff] at h
    have h9 : ∀ d ∈ Nat.digits 10 n, d < 10 :=
      fun d hd => Nat.digits_lt_base (by norm_num) hd
    have : Nat.digits 10 n = [0] := by
      have := mapDigit_inj (Nat.digits 10 n) [0] h9 (by decide)
        (by simpa using h)
      simpa using this
    have hofd := Nat.ofDigits_digits 10 n
    rw [this] at hofd
    simp [Nat.ofDigits] at hofd
    omega
  · exfalso
    rw [if_neg hm, if_pos hn, List.reverse_eq_iff] at h
    have h9 : ∀ d ∈ Nat.digits 10 m, d < 10 :=
      fun d hd => Nat.digits_lt_base (by norm_num) hd
    have : Nat.digits 10 m = [0] := by
      have := mapDigit_inj (Nat.digits 10 m) [0] h9 (by decide)
        (by simpa using h)
      simpa using this
    have hofd := Nat.ofDigits_digits 10 m
    rw [this] at hofd
    simp [Nat.ofDigits] at hofd
    omega
  · rw [if_neg hm, if_neg hn] at h
    have hrev := List.reverse_injective h
    have h9m : ∀ d ∈ Nat.digits 10 m, d < 10 :=
      fun d hd => Nat.digits_lt_base (by norm_num) hd
    have h9n : ∀ d ∈ Nat.digits 10 n, d < 10 :=
      fun d hd => Nat.digits_lt_base (by norm_num) hd
    have hdig := mapDigit_inj _ _ h9m h9n hrev
    have h1 := Nat.ofDigits_digits 10 m
    have h2 := Nat.ofDigits_digits 10 n
    rw [hdig] at h1
    omega

lemma splitFirst : ∀ u v p q : List Char, '_' ∉ u → '_' ∉ v →
    u ++ '_' :: p = v ++ '_' :: q → u = v ∧ p = q := by
  intro u
  induction u with
  | nil =>
      intro v p q _ hv h
      cases v with
      | nil => simpa using h
      | cons c v' =>
          exfalso
          simp only [List.nil_append, List.cons_append,
            List.cons.injEq] at h
          exact hv (by simp [← h.1])
  | cons c u' ih =>
      intro v p q hu hv h
      cases v with
      | nil =>
          exfalso
          simp only [List.nil_append, List.cons_append,
            List.cons.injEq] at h
          exact hu (by simp [h.1])
      | cons d v' =>
          simp only [List.cons_append, List.cons.injEq] at h
          have := ih v' p q (fun hm => hu (by simp [hm]))
            (fun hm => hv (by simp [hm])) h.2
          exact ⟨by simp [h.1, this.1], this.2⟩

lemma splitLast (a b x y : List Char) (hx : '_' ∉ x) (hy : '_' ∉ y)
    (h : a ++ '_' :: x = b ++ '_' :: y) : a = b ∧ x = y := by
  have hrev := congrArg List.reverse h
  simp only [List.reverse_append, List.reverse_cons] at hrev
  rw [List.append_assoc, List.append_assoc, List.singleton_append,
    List.singleton_append] at hrev
  have := splitFirst x.reverse y.reverse a.reverse b.reverse
    (by simpa using hx) (by simpa using hy) hrev
  exact ⟨List.reverse_injective this.2, List.reverse_injective this.1⟩

lemma mkSingleId_count_inj {t1 n1 t2 n2 : Nat}
    (h : mkSingleId t1 n1 = mkSingleId t2 n2) : n1 = n2 := by
  have hdata := congrArg String.data h
  simp only [mkSingleId, natStr, String.data_append] at hdata
  have hd : ∀ t n : Nat, ("task_".data ++ (String.mk (natChars t)).data ++
      "_".data ++ (natChars n)) =
      ("task_".data ++ natChars t) ++ '_' :: natChars n := by
    intro t n
    show "task_".data ++ natChars t ++ ['_'] ++ natChars n = _
    rw [List.append_assoc, List.append_assoc, List.append_assoc,
      List.singleton_append]
  rw [hd, hd] at hdata
  exact natChars_inj (splitLast _ _ _ _
    (underscore_notMem_natChars n1) (underscore_notMem_natChars n2)
    hdata).2

lemma statusOfStr_str (st : TaskStatus) : statusOfStr st.str = some st := by
  cases st <;> rfl

lemma optNumOfJ_round (x : Option ℚ) : optNumOfJ (jOfOptNum x) = some x := by
  cases x <;> rfl

lemma optStrOfJ_round (x : Option String) :
    optStrOfJ (jOfOptStr x) = some x := by
  cases x <;> rfl

lemma singleTask_from_to (t : TTSTask) :
    TTSTask.from_dict t.to_dict = some t := by
  obtain ⟨tid, tx, pp, op, im, st, s1, e1, er⟩ := t
  cases st <;> cases s1 <;> cases e1 <;> cases er <;> rfl

lemma speeches_round (sp : List (String × String)) :
    speechesOfJ (jOfSpeeches sp) = some sp := by
  induction sp with
  | nil => rfl
  | cons a sp ih =>
      simp only [jOfSpeeches, speechesOfJ, List.map_cons] at *
      simp [speechesOfJList, strOfJ, ih]

lemma errors_round (es : List (String × String)) :
    errorsOfJ (jOfErrors es) = some es := by
  induction es with
  | nil => rfl
  | cons a es ih =>
      simp only [jOfErrors, errorsOfJ, List.map_cons] at *
      have h1 : errorOfJ (JValue.jobj
          [("filename", JValue.jstr a.1), ("error", JValue.jstr a.2)]) =
          some (a.1, a.2) := rfl
      simp [errorsOfJList, h1, ih]

lemma natOfJ_cast (n : Nat) : natOfJ (JValue.jnum (n : ℚ)) = some n := by
  simp [natOfJ, Rat.den_natCast, Rat.num_natCast]

lemma batchTask_from_to (b : BatchTTSTask) :
    BatchTTSTask.from_dict b.to_dict = some b := by
  obtain ⟨tid, sp, pp, od, im, st, s1, e1, tf, pf, es⟩ := b
  simp only [BatchTTSTask.from_dict]
  rw [show jget (BatchTTSTask.to_dict ⟨tid, sp, pp, od, im, st, s1, e1, tf, pf, es⟩) "task_id" = some (JValue.jstr tid) from rfl,
     show jget (BatchTTSTask.to_dict ⟨tid, sp, pp, od, im, st, s1, e1, tf, pf, es⟩) "speeches" = some (jOfSpeeches sp) from rfl,
     show jget (BatchTTSTask.to_dict ⟨tid, sp, pp, od, im, st, s1, e1, tf, pf, es⟩) "prompt_path" = some (JValue.jstr pp) from rfl,
     show jget (BatchTTSTask.to_dict ⟨tid, sp, pp, od, im, st, s1, e1, tf, pf, es⟩) "output_directory" = some (JValue.jstr od) from rfl,
     show jget (BatchTTSTask.to_dict ⟨tid, sp, pp, od, im, st, s1, e1, tf, pf, es⟩) "infer_mode" = some (JValue.jstr im) from rfl,
     show jget (BatchTTSTask.to_dict ⟨tid, sp, pp, od, im, st, s1, e1, tf, pf, es⟩) "status" = some (JValue.jstr st.str) from rfl,
     show jget (BatchTTSTask.to_dict ⟨tid, sp, pp, od, im, st, s1, e1, tf, pf, es⟩) "start_time" = some (jOfOptNum s1) from rfl,
     show jget (BatchTTSTask.to_dict ⟨tid, sp, pp, od, im, st, s1, e1, tf, pf, es⟩) "end_time" = some (jOfOptNum e1) from rfl,
     show jget (BatchTTSTask.to_dict ⟨tid, sp, pp, od, im, st, s1, e1, tf, pf, es⟩) "total_files" = some (JValue.jnum (tf : ℚ)) from rfl,
     show jget (BatchTTSTask.to_dict ⟨tid, sp, pp, od, im, st, s1, e1, tf, pf, es⟩) "processed_files" = some (JValue.jnum (pf : ℚ)) from rfl,
     show jget (BatchTTSTask.to_dict ⟨tid, sp, pp, od, im, st, s1, e1, tf, pf, es⟩) "errors" = some (jOfErrors es) from rfl]
  simp [strOfJ, statusOfStr_str, optNumOfJ_round, speeches_round,
    errors_round, natOfJ_cast, BatchTTSTask.new]

lemma parse_to (t : Task) : parseEntry (JValue.jobj t.to_dict) = some t := by
  cases t with
  | single t1 =>
      simp only [parseEntry, Task.to_dict]
      rw [show isBatchTag (jget (TTSTask.to_dict t1) "task_type") = false
        from rfl]
      simp [singleTask_from_to]
  | batch b =>
      simp only [parseEntry, Task.to_dict]
      rw [show isBatchTag (jget (BatchTTSTask.to_dict b) "task_type") = true
        from rfl]
      simp [batchTask_from_to]

lemma loadEntries_save (reg : List (String × Task)) :
    loadEntries (reg.map (fun p => (p.1, JValue.jobj p.2.to_dict))) =
    some reg := by
  induction reg with
  | nil => rfl
  | cons a reg ih => simp [loadEntries, parse_to, ih]

lemma load_save (reg : List (String × Task)) :
    loadTasks (some (saveTasks reg)) = reg := by
  simp [loadTasks, saveTasks, loadEntries_save]

lemma rhe_ge_floor (q : ℚ) : ⌊q⌋ ≤ rhe q := by
  unfold rhe
  split
  · exact le_rfl
  · split
    · omega
    · split
      · exact le_rfl
      · omega

lemma round2_nonneg {q : ℚ} (hq : 0 ≤ q) : 0 ≤ round2 q := by
  unfold round2
  have h1 : (0 : ℤ) ≤ ⌊q * 100⌋ := Int.floor_nonneg.mpr (by positivity)
  have h2 := rhe_ge_floor (q * 100)
  have : (0 : ℚ) ≤ (rhe (q * 100) : ℚ) := by exact_mod_cast le_trans h1 h2
  positivity

lemma keys_updateKey (k : String) (f : Task → Task)
    (l : List (String × Task)) :
    (updateKey k f l).map Prod.fst = l.map Prod.fst := by
  simp only [updateKey, List.map_map]
  apply List.map_congr_left
  intro p _
  by_cases h : (p.1 == k)
  · rw [Function.comp_apply, if_pos h]
  · rw [Function.comp_apply, if_neg h]

lemma length_updateKey (k : String) (f : Task → Task)
    (l : List (String × Task)) : (updateKey k f l).length = l.length := by
  simp [updateKey]

lemma lookupTask_updateKey_self (k : String) (f : Task → Task)
    (l : List (String × Task)) :
    lookupTask (updateKey k f l) k = (lookupTask l k).map f := by
  induction l with
  | nil => rfl
  | cons a l ih =>
      simp only [updateKey, List.map_cons] at *
      by_cases h : (a.1 == k)
      · simp [lookupTask, h, if_pos h]
      · simp only [if_neg h, lookupTask]
        exact ih

lemma lookupTask_updateKey_ne (k k' : String) (f : Task → Task)
    (l : List (String × Task)) (h : k' ≠ k) :
    lookupTask (updateKey k f l) k' = lookupTask l k' := by
  induction l with
  | nil => rfl
  | cons a l ih =>
      simp only [updateKey, List.map_cons] at *
      by_cases hak : (a.1 == k)
      · have ha : a.1 = k := by simpa using hak
        have hne : ¬ (a.1 == k') := by simp [ha]; exact fun hh => h hh.symm
        simp only [if_pos hak, lookupTask]
        rw [if_neg (by simpa [ha] using hne), if_neg hne]
        exact ih
      · simp only [if_neg hak, lookupTask]
        by_cases hk' : (a.1 == k')
        · rw [if_pos hk', if_pos hk']
        · rw [if_neg hk', if_neg hk']
          exact ih

lemma mem_updateKey {k : String} {f : Task → Task}
    {l : List (String × Task)} {p : String × Task}
    (h : p ∈ updateKey k f l) :
    (p ∈ l ∧ p.1 ≠ k) ∨ ∃ t, (k, t) ∈ l ∧ p = (k, f t) := by
  simp only [updateKey, List.mem_map] at h
  obtain ⟨q, hq, heq⟩ := h
  by_cases hk : (q.1 == k)
  · right
    have : q.1 = k := by simpa using hk
    refine ⟨q.2, by rwa [← this, Prod.mk.eta], ?_⟩
    rw [← heq, if_pos hk, this]
  · left
    rw [if_neg hk] at heq
    subst heq
    exact ⟨hq, by simpa using hk⟩

lemma lookupTask_mem {l : List (String × Task)} {tid : String} {t : Task}
    (h : lookupTask l tid = some t) : (tid, t) ∈ l := by
  induction l with
  | nil => simp [lookupTask] at h
  | cons a l ih =>
      simp only [lookupTask] at h
      by_cases ha : (a.1 == tid)
      · rw [if_pos ha] at h
        obtain heq := Option.some.inj h
        have h1 : a.1 = tid := by simpa using ha
        have h2 : (tid, t) = a := by rw [← h1, ← heq]
        rw [h2]
        exact List.mem_cons_self a l
      · rw [if_neg ha] at h
        exact List.mem_cons.mpr (Or.inr (ih h))

lemma lookup_of_mem_nodup {l : List (String × Task)} {tid : String}
    {t : Task} (hnd : (l.map Prod.fst).Nodup) (h : (tid, t) ∈ l) :
    lookupTask l tid = some t := by
  induction l with
  | nil => simp at h
  | cons a l ih =>
      simp only [List.map_cons, List.nodup_cons] at hnd
      rcases List.mem_cons.mp h with heq | hmem
      · rw [← heq]
        simp [lookupTask]
      · have hne : a.1 ≠ tid := by
          intro hcontra
          exact hnd.1 (by
            rw [hcontra]
            exact List.mem_map.mpr ⟨(tid, t), hmem, rfl⟩)
        simp only [lookupTask]
        rw [if_neg (by simpa using hne)]
        exact ih hnd.2 hmem

lemma lookupTask_append_left {l l' : List (String × Task)} {tid : String}
    {t : Task} (h : lookupTask l tid = some t) :
    lookupTask (l ++ l') tid = some t := by
  induction l with
  | nil => simp [lookupTask] at h
  | cons a l ih =>
      simp only [lookupTask, List.cons_append] at *
      by_cases ha : (a.1 == tid)
      · rwa [if_pos ha] at h ⊢
      · rw [if_neg ha] at h ⊢
        exact ih h

lemma lookupTask_none_iff {l : List (String × Task)} {tid : String} :
    lookupTask l tid = none ↔ tid ∉ l.map Prod.fst := by
  induction l with
  | nil => simp [lookupTask]
  | cons a l ih =>
      simp only [lookupTask, List.map_cons, List.mem_cons] at *
      by_cases ha : (a.1 == tid)
      · rw [if_pos ha]
        have : a.1 = tid := by simpa using ha
        simp [this]
      · rw [if_neg ha]
        rw [ih]
        have hne : ¬ tid = a.1 := by
          intro hcontra
          subst hcontra
          simp at ha
        simp [hne]

lemma dictInsert_fresh {k : String} {v : Task} {l : List (String × Task)}
    (h : k ∉ l.map Prod.fst) : dictInsert k v l = l ++ [(k, v)] := by
  have : l.any (fun p => p.1 == k) = false := by
    rw [List.any_eq_false]
    intro p hp
    simp only [beq_iff_eq]
    intro hcontra
    exact h (List.mem_map.mpr ⟨p, hp, hcontra⟩)
  simp [dictInsert, this]

lemma scanPending_eq_some {l : List (String × Task)} {tid : String}
    (h : scanPending l = some tid) :
    ∃ t, (tid, t) ∈ l ∧ t.statusOf = TaskStatus.pending := by
  induction l with
  | nil => simp [scanPending] at h
  | cons a l ih =>
      rw [show scanPending (a :: l) =
        (if a.2.statusOf = TaskStatus.pending then some a.1
         else scanPending l) from by
          obtain ⟨k, t⟩ := a; rfl] at h
      split at h
      · obtain heq := Option.some.inj h
        exact ⟨a.2, by simp [← heq], by assumption⟩
      · obtain ⟨t, hmem, hp⟩ := ih h
        exact ⟨t, by simp [hmem], hp⟩

lemma scanPending_cons (a : String × Task) (l : List (String × Task)) :
    scanPending (a :: l) =
    (if a.2.statusOf = TaskStatus.pending then some a.1
     else scanPending l) := by
  obtain ⟨k, t⟩ := a; rfl

lemma scanPending_not_later {tid1 tid2 : String} {t1 t2 : Task} :
    ∀ l1 l2 l3 : List (String × Task),
    (((l1 ++ [(tid1, t1)] ++ l2 ++ [(tid2, t2)] ++ l3).map
      Prod.fst).Nodup) →
    t1.statusOf = TaskStatus.pending →
    scanPending (l1 ++ [(tid1, t1)] ++ l2 ++ [(tid2, t2)] ++ l3) ≠
      some tid2 := by
  intro l1
  induction l1 with
  | nil =>
      intro l2 l3 hnd hp h
      simp only [List.nil_append, List.cons_append] at h hnd
      rw [scanPending_cons] at h
      simp only [hp, if_pos] at h
      obtain heq := Option.some.inj h
      simp only [List.map_cons, List.nodup_cons, List.map_append] at hnd
      exact hnd.1 (by
        rw [heq]
        simp)
  | cons a l1 ih =>
      intro l2 l3 hnd hp h
      simp only [List.cons_append] at h hnd
      rw [scanPending_cons] at h
      simp only [List.map_cons, List.nodup_cons] at hnd
      split at h
      · obtain heq := Option.some.inj h
        exact hnd.1 (by
          rw [heq]
          simp)
      · exact ih l2 l3 hnd.2 hp h

lemma KeyOk_mono {ug : Nat → String} {len len' ctr ctr' : Nat}
    {p : String × Task} (h : KeyOk ug len ctr p) (hlen : len ≤ len')
    (hctr : ctr ≤ ctr') : KeyOk ug len' ctr' p := by
  obtain ⟨tid, task⟩ := p
  cases task with
  | single t =>
      obtain ⟨tm, n, h1, h2⟩ := h
      exact ⟨tm, n, h1, lt_of_lt_of_le h2 hlen⟩
  | batch b =>
      obtain ⟨j, h1, h2⟩ := h
      exact ⟨j, lt_of_lt_of_le h1 hctr, h2⟩

lemma RegOk.mono_ctr {ug : Nat → String} {ctr ctr' : Nat}
    {l : List (String × Task)} (h : RegOk ug ctr l) (hc : ctr ≤ ctr') :
    RegOk ug ctr' l :=
  ⟨h.1, fun p hp => KeyOk_mono (h.2.1 p hp) le_rfl hc, h.2.2.1, h.2.2.2⟩

lemma single_id_fresh {ug : Nat → String} {ctr : Nat}
    {l : List (String × Task)} (hug : UGOk ug)
    (hK : ∀ p ∈ l, KeyOk ug l.length ctr p) (tm : Nat) :
    mkSingleId tm l.length ∉ l.map Prod.fst := by
  intro hmem
  obtain ⟨p, hp, hfst⟩ := List.mem_map.mp hmem
  obtain ⟨tid, task⟩ := p
  cases task with
  | single t =>
      obtain ⟨tm', n', h1, h2⟩ := hK _ hp
      have : mkSingleId tm' n' = mkSingleId tm l.length := by
        rw [← h1]; exact hfst
      have := mkSingleId_count_inj this
      omega
  | batch b =>
      obtain ⟨j, h1, h2⟩ := hK _ hp
      exact hug.2 j tm l.length (by rw [← h2]; exact hfst)

lemma batch_id_fresh {ug : Nat → String} {ctr : Nat}
    {l : List (String × Task)} (hug : UGOk ug)
    (hK : ∀ p ∈ l, KeyOk ug l.length ctr p) :
    ug ctr ∉ l.map Prod.fst := by
  intro hmem
  obtain ⟨p, hp, hfst⟩ := List.mem_map.mp hmem
  obtain ⟨tid, task⟩ := p
  cases task with
  | single t =>
      obtain ⟨tm', n', h1, h2⟩ := hK _ hp
      exact hug.2 ctr tm' n' (by rw [← hfst]; exact h1)
  | batch b =>
      obtain ⟨j, h1, h2⟩ := hK _ hp
      have : ug j = ug ctr := by rw [← h2]; exact hfst
      have := hug.1 j ctr this
      omega

lemma untouched_claimTask {t : Task} (h : Untouched t) :
    Untouched (claimTask t) := by
  cases t <;> simpa [claimTask, Untouched] using h

lemma claimTask_statusOf (t : Task) :
    (claimTask t).statusOf = TaskStatus.processing := by
  cases t <;> rfl

lemma claimTask_startOf (t : Task) : (claimTask t).startOf = t.startOf := by
  cases t <;> rfl

lemma claimTask_endOf (t : Task) : (claimTask t).endOf = t.endOf := by
  cases t <;> rfl

lemma KeyOk_claimTask {ug : Nat → String} {len ctr : Nat} {tid : String}
    {t : Task} (h : KeyOk ug len ctr (tid, t)) :
    KeyOk ug len ctr (tid, claimTask t) := by
  cases t <;> simpa [claimTask, KeyOk] using h

lemma processTask_status_ne_pending (t : TTSTask) (o : SingleOutcome)
    (t1 t2 : ℚ) : (processTask t o t1 t2).status ≠ TaskStatus.pending := by
  cases o <;> simp [processTask]

lemma processBatchTask_status_ne_pending (b : BatchTTSTask)
    (o : BatchOutcome) (t1 t2 : ℚ) :
    (processBatchTask b o t1 t2).status ≠ TaskStatus.pending := by
  cases o with
  | initFail m => simp [processBatchTask]
  | mkdirFail m => simp [processBatchTask]
  | run res =>
      simp only [processBatchTask]
      split
      · simp
      · split <;> simp

lemma RegOk.append {ug : Nat → String} {ctr ctr' : Nat}
    {l : List (String × Task)} {k : String} {task : Task}
    (hR : RegOk ug ctr l) (hctr : ctr ≤ ctr')
    (hfresh : k ∉ l.map Prod.fst)
    (hkey : KeyOk ug (l.length + 1) ctr' (k, task))
    (hpend : task.statusOf = TaskStatus.pending → Untouched task)
    (htime : ∀ a c, task.startOf = some a → task.endOf = some c → a ≤ c) :
    RegOk ug ctr' (l ++ [(k, task)]) := by
  refine ⟨?_, ?_, ?_, ?_⟩
  · rw [List.map_append]
    rw [List.nodup_append]
    exact ⟨hR.1, List.nodup_singleton k,
      by simpa [List.disjoint_singleton] using hfresh⟩
  · intro p hp
    have hlen : (l ++ [(k, task)]).length = l.length + 1 := by simp
    rw [hlen]
    rcases List.mem_append.mp hp with hmem | hmem
    · exact KeyOk_mono (hR.2.1 p hmem) (Nat.le_succ _) hctr
    · rw [List.mem_singleton.mp hmem]
      exact hkey
  · intro p hp
    rcases List.mem_append.mp hp with hmem | hmem
    · exact hR.2.2.1 p hmem
    · rw [List.mem_singleton.mp hmem]
      exact hpend
  · intro p hp
    rcases List.mem_append.mp hp with hmem | hmem
    · exact hR.2.2.2 p hmem
    · rw [List.mem_singleton.mp hmem]
      exact htime

lemma RegOk.claimUpd {ug : Nat → String} {ctr : Nat}
    {l : List (String × Task)} {tid : String} (hR : RegOk ug ctr l) :
    RegOk ug ctr (updateKey tid claimTask l) := by
  refine ⟨?_, ?_, ?_, ?_⟩
  · rw [keys_updateKey]; exact hR.1
  · intro p hp
    rw [length_updateKey]
    rcases mem_updateKey hp with ⟨hmem, _⟩ | ⟨t, hmem, rfl⟩
    · exact hR.2.1 p hmem
    · exact KeyOk_claimTask (hR.2.1 _ hmem)
  · intro p hp hpend
    rcases mem_updateKey hp with ⟨hmem, _⟩ | ⟨t, hmem, rfl⟩
    · exact hR.2.2.1 p hmem hpend
    · exfalso
      rw [show ((tid, claimTask t) : String × Task).2 = claimTask t from rfl,
        claimTask_statusOf] at hpend
      cases hpend
  · intro p hp
    rcases mem_updateKey hp with ⟨hmem, _⟩ | ⟨t, hmem, rfl⟩
    · exact hR.2.2.2 p hmem
    · intro a c ha hc
      rw [show ((tid, claimTask t) : String × Task).2 = claimTask t from rfl,
        claimTask_startOf] at ha
      rw [show ((tid, claimTask t) : String × Task).2 = claimTask t from rfl,
        claimTask_endOf] at hc
      exact hR.2.2.2 (tid, t) hmem a c ha hc

lemma RegOk.updateRun {ug : Nat → String} {ctr : Nat}
    {l : List (String × Task)} {tid : String} {old new : Task}
    (hR : RegOk ug ctr l) (hlook : lookupTask l tid = some old)
    (hvar : ∀ len ctr2, KeyOk ug len ctr2 (tid, old) →
      KeyOk ug len ctr2 (tid, new))
    (hpend : new.statusOf ≠ TaskStatus.pending)
    (htime : ∀ a c, new.startOf = some a → new.endOf = some c → a ≤ c) :
    RegOk ug ctr (updateKey tid (fun _ => new) l) := by
  refine ⟨?_, ?_, ?_, ?_⟩
  · rw [keys_updateKey]; exact hR.1
  · intro p hp
    rw [length_updateKey]
    rcases mem_updateKey hp with ⟨hmem, _⟩ | ⟨t, hmem, rfl⟩
    · exact hR.2.1 p hmem
    · have : t = old := by
        have := lookup_of_mem_nodup hR.1 hmem
        rw [hlook] at this
        exact (Option.some.inj this).symm
      subst this
      exact hvar _ _ (hR.2.1 _ hmem)
  · intro p hp hpendp
    rcases mem_updateKey hp with ⟨hmem, _⟩ | ⟨t, hmem, rfl⟩
    · exact hR.2.2.1 p hmem hpendp
    · exact absurd hpendp hpend
  · intro p hp
    rcases mem_updateKey hp with ⟨hmem, _⟩ | ⟨t, hmem, rfl⟩
    · exact hR.2.2.2 p hmem
    · exact htime

lemma fileOk_maybeSave {ug : Nat → String} {ctr : Nat}
    {tasks : List (String × Task)} {old : Option JValue} {sv : Bool}
    (hT : RegOk ug ctr tasks) (hOld : RegOk ug ctr (loadTasks old)) :
    RegOk ug ctr (loadTasks (maybeSave sv tasks old)) := by
  cases sv
  · simpa [maybeSave] using hOld
  · simpa [maybeSave, load_save] using hT

lemma inv_step {ug : Nat → String} (hug : UGOk ug) {s s' : SysState}
    (hI : Inv ug s) (h : Step ug s s') : Inv ug s' := by
  obtain ⟨hReg, hFile, hWork, hNow⟩ := hI
  cases h with
  | restart t' hle =>
      refine ⟨hFile, hFile, ?_, le_trans hNow hle⟩
      intro tid htid
      exact absurd htid (by simp)
  | op hop =>
      cases hop with
      | createSingle text pp op im t' sv hle =>
          have hfresh := single_id_fresh hug hReg.2.1 (Int.toNat ⌊t'⌋)
          have heq := dictInsert_fresh
            (k := mkSingleId (Int.toNat ⌊t'⌋) s.tasks.length)
            (v := Task.single (TTSTask.new
              (mkSingleId (Int.toNat ⌊t'⌋) s.tasks.length) text pp op im))
            hfresh
          have hReg' : RegOk ug s.uuidCtr
              (dictInsert (mkSingleId (Int.toNat ⌊t'⌋) s.tasks.length)
                (Task.single (TTSTask.new
                  (mkSingleId (Int.toNat ⌊t'⌋) s.tasks.length) text pp op im))
                s.tasks) := by
            rw [heq]
            refine RegOk.append hReg le_rfl hfresh
              ⟨Int.toNat ⌊t'⌋, s.tasks.length, rfl, Nat.lt_succ_self _⟩
              (fun _ => by simp [Untouched, TTSTask.new]) ?_
            intro a c ha
            simp [Task.startOf, TTSTask.new] at ha
          refine ⟨hReg', fileOk_maybeSave hReg' hFile, ?_, le_trans hNow hle⟩
          intro tid htid
          obtain ⟨t, hl, hp, hu⟩ := hWork tid htid
          refine ⟨t, ?_, hp, hu⟩
          rw [heq]
          exact lookupTask_append_left hl
      | createBatch sp pp od im t' sv hle =>
          have hfresh := batch_id_fresh hug hReg.2.1
          have heq := dictInsert_fresh (k := ug s.uuidCtr)
            (v := Task.batch (BatchTTSTask.new (ug s.uuidCtr) sp pp od im))
            hfresh
          have hReg' : RegOk ug (s.uuidCtr + 1)
              (dictInsert (ug s.uuidCtr)
                (Task.batch (BatchTTSTask.new (ug s.uuidCtr) sp pp od im))
                s.tasks) := by
            rw [heq]
            refine RegOk.append hReg (Nat.le_succ _) hfresh
              ⟨s.uuidCtr, Nat.lt_succ_self _, rfl⟩
              (fun _ => by simp [Untouched, BatchTTSTask.new]) ?_
            intro a c ha
            simp [Task.startOf, BatchTTSTask.new] at ha
          refine ⟨hReg', fileOk_maybeSave hReg'
            (RegOk.mono_ctr hFile (Nat.le_succ _)), ?_, le_trans hNow hle⟩
          intro tid htid
          obtain ⟨t, hl, hp, hu⟩ := hWork tid htid
          refine ⟨t, ?_, hp, hu⟩
          rw [heq]
          exact lookupTask_append_left hl
      | claim tid sv hw hscan =>
          have hReg' : RegOk ug s.uuidCtr (updateKey tid claimTask s.tasks) :=
            RegOk.claimUpd hReg
          refine ⟨hReg', fileOk_maybeSave hReg' hFile, ?_, hNow⟩
          intro tid' htid'
          obtain rfl : tid = tid' := Option.some.inj htid'
          obtain ⟨t, hmem, hpend⟩ := scanPending_eq_some hscan
          have hlook := lookup_of_mem_nodup hReg.1 hmem
          refine ⟨claimTask t, ?_, claimTask_statusOf t,
            untouched_claimTask (hReg.2.2.1 (tid, t) hmem hpend)⟩
          rw [lookupTask_updateKey_self, hlook]
          rfl
      | runSingle tid t o t1 t2 sv hw hlook hle1 hle2 =>
          obtain ⟨tw, hlw, hpw, huw⟩ := hWork tid hw
          have htw : tw = Task.single t := by
            rw [hlook] at hlw
            exact (Option.some.inj hlw).symm
          subst htw
          have hstart : t.start_time = none := huw.1
          have hReg' : RegOk ug s.uuidCtr
              (updateKey tid (fun _ => Task.single (processTask t o t1 t2))
                s.tasks) := by
            refine RegOk.updateRun hReg hlook (fun _ _ hk => hk) ?_ ?_
            · exact processTask_status_ne_pending t o t1 t2
            · intro a c ha hc
              cases o with
              | initFail m =>
                  rw [show (Task.single (processTask t
                    (SingleOutcome.initFail m) t1 t2)).startOf =
                    t.start_time from rfl, hstart] at ha
                  cases ha
              | engineOk =>
                  obtain rfl : t1 = a := Option.some.inj ha
                  obtain rfl : t2 = c := Option.some.inj hc
                  exact hle2
              | engineFail m =>
                  obtain rfl : t1 = a := Option.some.inj ha
                  obtain rfl : t2 = c := Option.some.inj hc
                  exact hle2
          refine ⟨hReg', fileOk_maybeSave hReg' hFile, ?_,
            le_trans (le_trans hNow hle1) hle2⟩
          intro tid' htid'
          exact absurd htid' (by simp)
      | runBatch tid b o t1 t2 sv hw hlook hle1 hle2 hres =>
          obtain ⟨tw, hlw, hpw, huw⟩ := hWork tid hw
          have htw : tw = Task.batch b := by
            rw [hlook] at hlw
            exact (Option.some.inj hlw).symm
          subst htw
          have hstart : b.start_time = none := huw.1
          have hReg' : RegOk ug s.uuidCtr
              (updateKey tid
                (fun _ => Task.batch (processBatchTask b o t1 t2))
                s.tasks) := by
            refine RegOk.updateRun hReg hlook (fun _ _ hk => hk) ?_ ?_
            · exact processBatchTask_status_ne_pending b o t1 t2
            · intro a c ha hc
              cases o with
              | initFail m =>
                  rw [show (Task.batch (processBatchTask b
                    (BatchOutcome.initFail m) t1 t2)).startOf =
                    b.start_time from rfl, hstart] at ha
                  cases ha
              | mkdirFail m =>
                  obtain rfl : t1 = a := Option.some.inj ha
                  obtain rfl : t2 = c := Option.some.inj hc
                  exact hle2
              | run res =>
                  have ha' : some t1 = some a := by
                    rw [← ha]
                    simp only [processBatchTask, Task.startOf]
                    split
                    · rfl
                    · split <;> rfl
                  have hc' : some t2 = some c := by
                    rw [← hc]
                    simp only [processBatchTask, Task.endOf]
                    split
                    · rfl
                    · split <;> rfl
                  obtain rfl : t1 = a := Option.some.inj ha'
                  obtain rfl : t2 = c := Option.some.inj hc'
                  exact hle2
          refine ⟨hReg', fileOk_maybeSave hReg' hFile, ?_,
            le_trans (le_trans hNow hle1) hle2⟩
          intro tid' htid'
          exact absurd htid' (by simp)

lemma invReach {ug : Nat → String} (hug : UGOk ug) {s : SysState}
    (h : Reach ug s) : Inv ug s := by
  induction h with
  | refl =>
      refine ⟨⟨List.nodup_nil, ?_, ?_, ?_⟩, ⟨List.nodup_nil, ?_, ?_, ?_⟩,
        ?_, le_refl 0⟩
      all_goals first
        | (intro p hp; exact absurd hp (List.not_mem_nil p))
        | (intro tid htid; exact absurd htid (by simp [initState]))
  | tail hsteps hstep ih => exact inv_step hug ih hstep

lemma processTask_status_cases (t : TTSTask) (o : SingleOutcome)
    (t1 t2 : ℚ) : (processTask t o t1 t2).status = TaskStatus.completed ∨
    (processTask t o t1 t2).status = TaskStatus.failed := by
  cases o <;> simp [processTask]

lemma processBatchTask_status_cases (b : BatchTTSTask) (o : BatchOutcome)
    (t1 t2 : ℚ) :
    (processBatchTask b o t1 t2).status = TaskStatus.completed ∨
    (processBatchTask b o t1 t2).status = TaskStatus.failed := by
  cases o with
  | initFail m => simp [processBatchTask]
  | mkdirFail m => simp [processBatchTask]
  | run res =>
      simp only [processBatchTask]
      split
      · simp
      · split <;> simp

lemma statusEvolve {ug : Nat → String} (hug : UGOk ug) {s s' : SysState}
    (hInv : Inv ug s) (h : OpStep ug s s') {tid : String} {t t' : Task}
    (hl : lookupTask s.tasks tid = some t)
    (hl' : lookupTask s'.tasks tid = some t') :
    t'.statusOf = t.statusOf ∨
    (t.statusOf = TaskStatus.pending ∧
     t'.statusOf = TaskStatus.processing) ∨
    (t.statusOf = TaskStatus.processing ∧
     (t'.statusOf = TaskStatus.completed ∨
      t'.statusOf = TaskStatus.failed)) := by
  obtain ⟨hReg, hFile, hWork, hNow⟩ := hInv
  cases h with
  | createSingle text pp op im tc sv hle =>
      left
      rw [dictInsert_fresh (single_id_fresh hug hReg.2.1 _),
        lookupTask_append_left hl] at hl'
      rw [Option.some.inj hl']
  | createBatch sp pp od im tc sv hle =>
      left
      rw [dictInsert_fresh (batch_id_fresh hug hReg.2.1),
        lookupTask_append_left hl] at hl'
      rw [Option.some.inj hl']
  | claim tid0 sv hw hscan =>
      by_cases htid : tid = tid0
      · subst htid
        rw [lookupTask_updateKey_self, hl, Option.map_some'] at hl'
        obtain ⟨tsc, hmem, hpend⟩ := scanPending_eq_some hscan
        have hlsc := lookup_of_mem_nodup hReg.1 hmem
        rw [hl] at hlsc
        have heq : t = tsc := Option.some.inj hlsc
        subst heq
        right; left
        rw [← Option.some.inj hl']
        exact ⟨hpend, claimTask_statusOf t⟩
      · rw [lookupTask_updateKey_ne _ _ _ _ htid, hl] at hl'
        left
        rw [Option.some.inj hl']
  | runSingle tid0 t0 o t1 t2 sv hw hlook hle1 hle2 =>
      by_cases htid : tid = tid0
      · subst htid
        rw [lookupTask_updateKey_self, hl, Option.map_some'] at hl'
        rw [hlook] at hl
        obtain rfl : Task.single t0 = t := Option.some.inj hl
        obtain ⟨tw, hlw, hpw, huw⟩ := hWork tid hw
        rw [hlook] at hlw
        obtain rfl : Task.single t0 = tw := Option.some.inj hlw
        right; right
        refine ⟨hpw, ?_⟩
        rw [← Option.some.inj hl']
        exact processTask_status_cases t0 o t1 t2
      · rw [lookupTask_updateKey_ne _ _ _ _ htid, hl] at hl'
        left
        rw [Option.some.inj hl']
  | runBatch tid0 b o t1 t2 sv hw hlook hle1 hle2 hres =>
      by_cases htid : tid = tid0
      · subst htid
        rw [lookupTask_updateKey_self, hl, Option.map_some'] at hl'
        rw [hlook] at hl
        obtain rfl : Task.batch b = t := Option.some.inj hl
        obtain ⟨tw, hlw, hpw, huw⟩ := hWork tid hw
        rw [hlook] at hlw
        obtain rfl : Task.batch b = tw := Option.some.inj hlw
        right; right
        refine ⟨hpw, ?_⟩
        rw [← Option.some.inj hl']
        exact processBatchTask_status_cases b o t1 t2
      · rw [lookupTask_updateKey_ne _ _ _ _ htid, hl] at hl'
        left
        rw [Option.some.inj hl']

lemma startEvolve {ug : Nat → String} (hug : UGOk ug) {s s' : SysState}
    (hInv : Inv ug s) (h : OpStep ug s s') {tid : String} {t t' : Task}
    (hl : lookupTask s.tasks tid = some t)
    (hl' : lookupTask s'.tasks tid = some t') :
    (t.startOf ≠ none → t'.startOf = t.startOf) ∧
    (t.startOf = none → t'.startOf ≠ none →
      s.worker = some tid ∧ t.statusOf = TaskStatus.processing) := by
  obtain ⟨hReg, hFile, hWork, hNow⟩ := hInv
  cases h with
  | createSingle text pp op im tc sv hle =>
      rw [dictInsert_fresh (single_id_fresh hug hReg.2.1 _),
        lookupTask_append_left hl] at hl'
      obtain rfl : t = t' := Option.some.inj hl'
      exact ⟨fun _ => rfl, fun h1 h2 => absurd h1 h2⟩
  | createBatch sp pp od im tc sv hle =>
      rw [dictInsert_fresh (batch_id_fresh hug hReg.2.1),
        lookupTask_append_left hl] at hl'
      obtain rfl : t = t' := Option.some.inj hl'
      exact ⟨fun _ => rfl, fun h1 h2 => absurd h1 h2⟩
  | claim tid0 sv hw hscan =>
      by_cases htid : tid = tid0
      · subst htid
        rw [lookupTask_updateKey_self, hl, Option.map_some'] at hl'
        obtain heq : claimTask t = t' := Option.some.inj hl'
        rw [← heq, claimTask_startOf]
        exact ⟨fun _ => rfl, fun h1 h2 => absurd h1 h2⟩
      · rw [lookupTask_updateKey_ne _ _ _ _ htid, hl] at hl'
        obtain rfl : t = t' := Option.some.inj hl'
        exact ⟨fun _ => rfl, fun h1 h2 => absurd h1 h2⟩
  | runSingle tid0 t0 o t1 t2 sv hw hlook hle1 hle2 =>
      by_cases htid : tid = tid0
      · subst htid
        rw [hlook] at hl
        obtain rfl : Task.single t0 = t := Option.some.inj hl
        obtain ⟨tw, hlw, hpw, huw⟩ := hWork tid hw
        rw [hlook] at hlw
        obtain rfl : Task.single t0 = tw := Option.some.inj hlw
        exact ⟨fun hne => absurd huw.1 hne, fun _ _ => ⟨hw, hpw⟩⟩
      · rw [lookupTask_updateKey_ne _ _ _ _ htid, hl] at hl'
        obtain rfl : t = t' := Option.some.inj hl'
        exact ⟨fun _ => rfl, fun h1 h2 => absurd h1 h2⟩
  | runBatch tid0 b o t1 t2 sv hw hlook hle1 hle2 hres =>
      by_cases htid : tid = tid0
      · subst htid
        rw [hlook] at hl
        obtain rfl : Task.batch b = t := Option.some.inj hl
        obtain ⟨tw, hlw, hpw, huw⟩ := hWork tid hw
        rw [hlook] at hlw
        obtain rfl : Task.batch b = tw := Option.some.inj hlw
        exact ⟨fun hne => absurd huw.1 hne, fun _ _ => ⟨hw, hpw⟩⟩
      · rw [lookupTask_updateKey_ne _ _ _ _ htid, hl] at hl'
        obtain rfl : t = t' := Option.some.inj hl'
        exact ⟨fun _ => rfl, fun h1 h2 => absurd h1 h2⟩

lemma claimed_by_scan {ug : Nat → String} (hug : UGOk ug) {s s' : SysState}
    (hInv : Inv ug s) (h : OpStep ug s s') {tid : String} {x x' : Task}
    (hl : lookupTask s.tasks tid = some x)
    (hx : x.statusOf = TaskStatus.pending)
    (hl' : lookupTask s'.tasks tid = some x')
    (hx' : x'.statusOf ≠ TaskStatus.pending) :
    scanPending s.tasks = some tid := by
  obtain ⟨hReg, hFile, hWork, hNow⟩ := hInv
  cases h with
  | createSingle text pp op im tc sv hle =>
      rw [dictInsert_fresh (single_id_fresh hug hReg.2.1 _),
        lookupTask_append_left hl] at hl'
      obtain rfl : x = x' := Option.some.inj hl'
      exact absurd hx hx'
  | createBatch sp pp od im tc sv hle =>
      rw [dictInsert_fresh (batch_id_fresh hug hReg.2.1),
        lookupTask_append_left hl] at hl'
      obtain rfl : x = x' := Option.some.inj hl'
      exact absurd hx hx'
  | claim tid0 sv hw hscan =>
      by_cases htid : tid = tid0
      · subst htid
        exact hscan
      · rw [lookupTask_updateKey_ne _ _ _ _ htid, hl] at hl'
        obtain rfl : x = x' := Option.some.inj hl'
        exact absurd hx hx'
  | runSingle tid0 t0 o t1 t2 sv hw hlook hle1 hle2 =>
      by_cases htid : tid = tid0
      · subst htid
        obtain ⟨tw, hlw, hpw, huw⟩ := hWork tid hw
        rw [hlook] at hlw hl
        obtain rfl : Task.single t0 = tw := Option.some.inj hlw
        obtain rfl : Task.single t0 = x := Option.some.inj hl
        rw [hpw] at hx
        cases hx
      · rw [lookupTask_updateKey_ne _ _ _ _ htid, hl] at hl'
        obtain rfl : x = x' := Option.some.inj hl'
        exact absurd hx hx'
  | runBatch tid0 b o t1 t2 sv hw hlook hle1 hle2 hres =>
      by_cases htid : tid = tid0
      · subst htid
        obtain ⟨tw, hlw, hpw, huw⟩ := hWork tid hw
        rw [hlook] at hlw hl
        obtain rfl : Task.batch b = tw := Option.some.inj hlw
        obtain rfl : Task.batch b = x := Option.some.inj hl
        rw [hpw] at hx
        cases hx
      · rw [lookupTask_updateKey_ne _ _ _ _ htid, hl] at hl'
        obtain rfl : x = x' := Option.some.inj hl'
        exact absurd hx hx'

lemma updateKey_keyBefore {k : String} {f : Task → Task}
    {l : List (String × Task)} {tid1 tid2 : String}
    (hb : keyBefore tid1 tid2 l) : keyBefore tid1 tid2 (updateKey k f l) := by
  obtain ⟨l1, x1, l2, x2, l3, rfl⟩ := hb
  refine ⟨updateKey k f l1, (if tid1 == k then f x1 else x1),
    updateKey k f l2, (if tid2 == k then f x2 else x2),
    updateKey k f l3, ?_⟩
  simp only [updateKey, List.map_append, List.map_cons, List.map_nil,
    List.singleton_append]
  by_cases h1 : (tid1 == k) <;> by_cases h2 : (tid2 == k) <;>
    simp [h1, h2]

lemma keyBefore_append {tid1 tid2 : String} {l : List (String × Task)}
    (hb : keyBefore tid1 tid2 l) (l' : List (String × Task)) :
    keyBefore tid1 tid2 (l ++ l') := by
  obtain ⟨l1, x1, l2, x2, l3, rfl⟩ := hb
  exact ⟨l1, x1, l2, x2, l3 ++ l', by simp⟩

lemma keyBefore_opStep {ug : Nat → String} (hug : UGOk ug)
    {s s' : SysState} (hInv : Inv ug s) {tid1 tid2 : String}
    (hb : keyBefore tid1 tid2 s.tasks) (h : OpStep ug s s') :
    keyBefore tid1 tid2 s'.tasks := by
  obtain ⟨hReg, hFile, hWork, hNow⟩ := hInv
  cases h with
  | createSingle text pp op im tc sv hle =>
      show keyBefore tid1 tid2 (dictInsert
        (mkSingleId (Int.toNat ⌊tc⌋) s.tasks.length)
        (Task.single (TTSTask.new
          (mkSingleId (Int.toNat ⌊tc⌋) s.tasks.length) text pp op im))
        s.tasks)
      rw [dictInsert_fresh (single_id_fresh hug hReg.2.1 _)]
      exact keyBefore_append hb _
  | createBatch sp pp od im tc sv hle =>
      show keyBefore tid1 tid2 (dictInsert (ug s.uuidCtr)
        (Task.batch (BatchTTSTask.new (ug s.uuidCtr) sp pp od im)) s.tasks)
      rw [dictInsert_fresh (batch_id_fresh hug hReg.2.1)]
      exact keyBefore_append hb _
  | claim tid0 sv hw hscan =>
      show keyBefore tid1 tid2 (updateKey tid0 claimTask s.tasks)
      exact updateKey_keyBefore hb
  | runSingle tid0 t0 o t1 t2 sv hw hlook hle1 hle2 =>
      show keyBefore tid1 tid2 (updateKey tid0
        (fun _ => Task.single (processTask t0 o t1 t2)) s.tasks)
      exact updateKey_keyBefore hb
  | runBatch tid0 b o t1 t2 sv hw hlook hle1 hle2 hres =>
      show keyBefore tid1 tid2 (updateKey tid0
        (fun _ => Task.batch (processBatchTask b o t1 t2)) s.tasks)
      exact updateKey_keyBefore hb

lemma reach_of_opSteps {ug : Nat → String} {s0 s : SysState}
    (h0 : Reach ug s0) (h : OpSteps ug s0 s) : Reach ug s :=
  Relation.ReflTransGen.trans h0
    (Relation.ReflTransGen.mono (fun _ _ h' => Step.op h') h)

lemma keyBefore_opSteps {ug : Nat → String} (hug : UGOk ug)
    {s0 s : SysState} (h0 : Reach ug s0) (h : OpSteps ug s0 s)
    {tid1 tid2 : String} (hb : keyBefore tid1 tid2 s0.tasks) :
    keyBefore tid1 tid2 s.tasks := by
  induction h with
  | refl => exact hb
  | tail hst hstep ih =>
      exact keyBefore_opStep hug
        (invReach hug (reach_of_opSteps h0 hst)) ih hstep

lemma status_ne_pending_propagate {t t' : Task}
    (D : t'.statusOf = t.statusOf ∨
      (t.statusOf = TaskStatus.pending ∧
       t'.statusOf = TaskStatus.processing) ∨
      (t.statusOf = TaskStatus.processing ∧
       (t'.statusOf = TaskStatus.completed ∨
        t'.statusOf = TaskStatus.failed)))
    (h : t.statusOf ≠ TaskStatus.pending) :
    t'.statusOf ≠ TaskStatus.pending := by
  rcases D with h1 | ⟨h1, h2⟩ | ⟨h1, h2⟩
  · rw [h1]; exact h
  · exact absurd h1 h
  · rcases h2 with h2 | h2 <;> rw [h2] <;> simp

lemma fifo_trace {ug : Nat → String} (hug : UGOk ug) {s0 s : SysState}
    (h0 : Reach ug s0) (hsteps : OpSteps ug s0 s) {tid1 tid2 : String}
    {t02 : Task} (hb : keyBefore tid1 tid2 s0.tasks)
    (hl2 : lookupTask s0.tasks tid2 = some t02)
    (hp2 : t02.statusOf = TaskStatus.pending) :
    ∀ x2, lookupTask s.tasks tid2 = some x2 →
      x2.statusOf ≠ TaskStatus.pending →
    ∀ x1, lookupTask s.tasks tid1 = some x1 →
      x1.statusOf ≠ TaskStatus.pending := by
  induction hsteps with
  | refl =>
      intro x2 hx2 hnp x1 hx1
      rw [hl2] at hx2
      obtain rfl : t02 = x2 := Option.some.inj hx2
      exact absurd hp2 hnp
  | tail hst hstep ih =>
      intro x2 hx2 hnp x1 hx1
      have hReach2 := reach_of_opSteps h0 hst
      have hInv2 := invReach hug hReach2
      have hb2 := keyBefore_opSteps hug h0 hst hb
      obtain ⟨l1, y1, l2, y2, l3, heq⟩ := hb2
      have hm1 : (tid1, y1) ∈ l1 ++ [(tid1, y1)] ++ l2 ++ [(tid2, y2)] ++ l3 := by
        simp
      have hm2 : (tid2, y2) ∈ l1 ++ [(tid1, y1)] ++ l2 ++ [(tid2, y2)] ++ l3 := by
        simp
      have hly1 := lookup_of_mem_nodup hInv2.1.1 (heq.symm ▸ hm1)
      have hly2 := lookup_of_mem_nodup hInv2.1.1 (heq.symm ▸ hm2)
      have D1 := statusEvolve hug hInv2 hstep hly1 hx1
      by_cases hy1 : y1.statusOf = TaskStatus.pending
      · by_cases hy2 : y2.statusOf = TaskStatus.pending
        · have hscan := claimed_by_scan hug hInv2 hstep hly2 hy2 hx2 hnp
          exfalso
          have hnot := scanPending_not_later l1 l2 l3
            (by rw [← heq]; exact hInv2.1.1) hy1
          rw [← heq] at hnot
          exact hnot hscan
        · exact absurd hy1 (ih y2 hly2 hy2 y1 hly1)
      · exact status_ne_pending_propagate D1 hy1

lemma process_time_none_iff (t : Task) :
    t.process_time = none ↔ t.startOf = none ∨ t.endOf = none := by
  cases t with
  | single t1 =>
      cases h1 : t1.start_time <;> cases h2 : t1.end_time <;>
        simp [Task.process_time, TTSTask.process_time, Task.startOf,
          Task.endOf, h1, h2]
  | batch b =>
      cases h1 : b.start_time <;> cases h2 : b.end_time <;>
        simp [Task.process_time, BatchTTSTask.process_time, Task.startOf,
          Task.endOf, h1, h2]

lemma process_time_some {t : Task} {a c : ℚ} (h1 : t.startOf = some a)
    (h2 : t.endOf = some c) : t.process_time = some (round2 (c - a)) := by
  cases t with
  | single t1 =>
      simp only [Task.startOf] at h1
      simp only [Task.endOf] at h2
      simp [Task.process_time, TTSTask.process_time, h1, h2]
  | batch b =>
      simp only [Task.startOf] at h1
      simp only [Task.endOf] at h2
      simp [Task.process_time, BatchTTSTask.process_time, h1, h2]

lemma ugW_ok : UGOk ugW := by
  constructor
  · intro i j h
    have := congrArg (fun s => s.data.length) h
    simpa [ugW] using this
  · intro i tm n h
    have hdata := congrArg String.data h
    simp only [ugW, mkSingleId, natStr, String.data_append] at hdata
    have : 'u' = 't' := by
      have hrep : (List.replicate (i + 1) 'u') =
          'u' :: List.replicate i 'u' := rfl
      rw [hrep] at hdata
      have ht : ("task_".data ++ (String.mk (natChars tm)).data ++
          "_".data ++ natChars n) =
          't' :: ("ask_".data ++ natChars tm ++ "_".data ++ natChars n) := by
        rfl
      rw [ht] at hdata
      exact (List.cons.injEq _ _ _ _).mp hdata |>.1
    cases this

lemma step_wS1 : OpStep ugW initState wS1 :=
  OpStep.createSingle initState "hello" "p.wav" "out/a.wav" "普通推理" 1
    true (by norm_num [initState])

lemma step_wS2 : OpStep ugW wS1 wS2 :=
  OpStep.claim wS1 idA true rfl rfl

lemma step_wS3 : OpStep ugW wS2 wS3 :=
  OpStep.runSingle wS2 idA taskA1 (SingleOutcome.engineFail "device busy")
    2 3 true rfl rfl (by norm_num [wS2]) (by norm_num)

lemma reach_wS1 : Reach ugW wS1 :=
  Relation.ReflTransGen.single (Step.op step_wS1)

lemma reach_wS2 : Reach ugW wS2 :=
  Relation.ReflTransGen.tail reach_wS1 (Step.op step_wS2)

lemma reach_wS3 : Reach ugW wS3 :=
  Relation.ReflTransGen.tail reach_wS2 (Step.op step_wS3)

lemma step_wB1 : OpStep ugW initState wB1 :=
  OpStep.createBatch initState [("a.wav", "xa"), ("b.wav", "xb")] "p.wav"
    "outdir" "普通推理" 1 true (by norm_num [initState])

lemma step_wB2 : OpStep ugW wB1 wB2 :=
  OpStep.claim wB1 idB true rfl rfl

lemma step_wB3 : OpStep ugW wB2 wB3 :=
  OpStep.runBatch wB2 idB batchB1 (BatchOutcome.run [none, some "boom"])
    2 3 true rfl rfl (by norm_num [wB2]) (by norm_num)
    (fun res hres => by cases hres; rfl)

lemma reach_wB1 : Reach ugW wB1 :=
  Relation.ReflTransGen.single (Step.op step_wB1)

lemma reach_wB2 : Reach ugW wB2 :=
  Relation.ReflTransGen.tail reach_wB1 (Step.op step_wB2)

lemma step_wE1 : OpStep ugW initState wE1 :=
  OpStep.createBatch initState [] "p.wav" "outdir" "普通推理" 1 true
    (by norm_num [initState])

lemma step_wE2 : OpStep ugW wE1 wE2 :=
  OpStep.claim wE1 idB true rfl rfl

lemma step_wE3 : OpStep ugW wE2 wE3 :=
  OpStep.runBatch wE2 idB batchE1 (BatchOutcome.run []) 2 3 true rfl rfl
    (by norm_num [wE2]) (by norm_num)
    (fun res hres => by cases hres; rfl)

lemma reach_wE1 : Reach ugW wE1 :=
  Relation.ReflTransGen.single (Step.op step_wE1)

lemma reach_wE2 : Reach ugW wE2 :=
  Relation.ReflTransGen.tail reach_wE1 (Step.op step_wE2)

lemma step_wF2 : OpStep ugW wS1 wF2 :=
  OpStep.createSingle wS1 "world" "p.wav" "out/b.wav" "普通推理" 1 true
    (by norm_num [wS1])

lemma step_wF3 : OpStep ugW wF2 wF3 :=
  OpStep.claim wF2 idA true rfl rfl

lemma step_wF4 : OpStep ugW wF3 wF4 :=
  OpStep.runSingle wF3 idA taskA1 SingleOutcome.engineOk 2 3 true rfl rfl
    (by norm_num [wF3]) (by norm_num)

lemma step_wF5 : OpStep ugW wF4 wF5 :=
  OpStep.claim wF4 idA2 true rfl rfl

lemma reach_wF2 : Reach ugW wF2 :=
  Relation.ReflTransGen.tail reach_wS1 (Step.op step_wF2)

lemma opSteps_wF2_wF5 : OpSteps ugW wF2 wF5 :=
  Relation.ReflTransGen.tail
    (Relation.ReflTransGen.tail
      (Relation.ReflTransGen.single step_wF3) step_wF4) step_wF5

/-- Claim C1, counterexample.  The spec says a malformed record is
skipped individually and the well-formed records are still returned.  In
the code, the whole parsing loop sits in one try/except whose handler
reassigns self.tasks to the empty dict, so one malformed record (here an
empty object under key "b") makes load() drop the perfectly well-formed
record under key "a" too: load() returns the empty registry. -/
theorem C1_counterexample :
    parseEntry (JValue.jobj taskA.to_dict) = some (Task.single taskA) ∧
    loadTasks (some (JValue.jobj
      [("a", JValue.jobj taskA.to_dict), ("b", JValue.jobj [])])) = [] := by
  constructor
  · exact parse_to (Task.single taskA)
  · rfl

/-- Claim C1, amended.  load() is all-or-nothing rather than per-record:
if every persisted record parses, load() returns all of them; if any
record fails to parse, the whole load fails and yields an empty registry,
dropping the well-formed records as well; absence of the file yields an
empty registry without raising an error. -/
theorem C1_load_all_or_nothing :
    loadTasks none = [] ∧
    (∀ entries l, loadEntries entries = some l →
      loadTasks (some (JValue.jobj entries)) = l) ∧
    (∀ entries, loadEntries entries = none →
      loadTasks (some (JValue.jobj entries)) = []) := by
  refine ⟨rfl, ?_, ?_⟩
  · intro entries l h
    simp [loadTasks, h]
  · intro entries h
    simp [loadTasks, h]

/-- Witness for C1's amended theorem at concrete inputs: a file holding
one well-formed record loads it; a file holding the same record plus a
malformed one loads nothing. -/
theorem C1_load_all_or_nothing_witness :
    loadTasks none = [] ∧
    (loadEntries [("a", JValue.jobj taskA.to_dict)] =
      some [("a", Task.single taskA)] ∧
     loadTasks (some (JValue.jobj [("a", JValue.jobj taskA.to_dict)])) =
      [("a", Task.single taskA)]) ∧
    (loadEntries [("a", JValue.jobj taskA.to_dict), ("b", JValue.jobj [])] =
      none ∧
     loadTasks (some (JValue.jobj
       [("a", JValue.jobj taskA.to_dict), ("b", JValue.jobj [])])) = []) :=
  ⟨C1_load_all_or_nothing.1,
   ⟨rfl, C1_load_all_or_nothing.2.1 _ _ rfl⟩,
   ⟨rfl, C1_load_all_or_nothing.2.2 _ rfl⟩⟩

/-- Claim C2.  Round-trip: serializing any registry of single and batch
records with _save_tasks and parsing it back with _load_tasks reproduces
every record with every field equal to the original, including batch
errors lists and processed_files counters, in any lifecycle state. -/
theorem C2_save_load_roundtrip (reg : List (String × Task)) :
    loadTasks (some (saveTasks reg)) = reg :=
  load_save reg

/-- Claim C3, counterexample.  The spec says the worker records
start_time in the same lock-held step that sets PROCESSING, so a
PROCESSING task always has a non-null start_time.  In the code the claim
loop only sets the status; start_time is assigned later inside
_process_task, so the state right after a claim is reachable and holds a
PROCESSING task whose start_time is still null. -/
theorem C3_counterexample :
    Reach ugW wS2 ∧
    lookupTask wS2.tasks idA = some (Task.single taskA1) ∧
    taskA1.status = TaskStatus.processing ∧
    taskA1.start_time = none :=
  ⟨reach_wS2, rfl, rfl, rfl⟩

/-- Claim C3, amended.  The worker's claim step sets only the status to
PROCESSING; start_time is recorded later by the processing routine, after
engine initialization, so a PROCESSING task can be observed with a null
start_time.  start_time is still assigned at most once: an operation
never changes a non-null start_time, and it turns a null start_time
non-null only in the processing step, on the very task the worker
claimed, which is then PROCESSING. -/
theorem C3_start_time_once {ug : Nat → String} (hug : UGOk ug)
    {s s' : SysState} (hs : Reach ug s) (hstep : OpStep ug s s')
    {tid : String} {t t' : Task} (hl : lookupTask s.tasks tid = some t)
    (hl' : lookupTask s'.tasks tid = some t') :
    (t.startOf ≠ none → t'.startOf = t.startOf) ∧
    (t.startOf = none → t'.startOf ≠ none →
      s.worker = some tid ∧ t.statusOf = TaskStatus.processing) :=
  startEvolve hug (invReach hug hs) hstep hl hl'

/-- Witness for C3's amended theorem: the failing engine run on the
claimed task turns its null start_time non-null, and the theorem
certifies this happens on the worker's claimed, PROCESSING task. -/
theorem C3_start_time_once_witness :
    UGOk ugW ∧ Reach ugW wS2 ∧ OpStep ugW wS2 wS3 ∧
    lookupTask wS2.tasks idA = some (Task.single taskA1) ∧
    lookupTask wS3.tasks idA = some (Task.single taskA2) ∧
    (Task.single taskA1).startOf = none ∧
    (Task.single taskA2).startOf = some 2 ∧
    (wS2.worker = some idA ∧
      (Task.single taskA1).statusOf = TaskStatus.processing) :=
  ⟨ugW_ok, reach_wS2, step_wS3, rfl, rfl, rfl, rfl,
   (C3_start_time_once ugW_ok reach_wS2 step_wS3
     (show lookupTask wS2.tasks idA = some (Task.single taskA1) from rfl)
     (show lookupTask wS3.tasks idA = some (Task.single taskA2)
       from rfl)).2 rfl
     (by rw [show (Task.single taskA2).startOf = some 2 from rfl]
         exact Option.some_ne_none 2)⟩

lemma processItems_spec :
    ∀ (items : List (String × String)) (res : List (Option String)),
    res.length = items.length →
    processItems items res = (res.countP (fun r => r.isNone),
      (items.zip res).filterMap
        (fun pr => Option.map (fun m => (pr.1.1, m)) pr.2)) := by
  intro items
  induction items with
  | nil =>
      intro res h
      rw [List.length_nil, List.length_eq_zero] at h
      subst h
      rfl
  | cons a items ih =>
      intro res h
      cases res with
      | nil => simp at h
      | cons r rs =>
          obtain ⟨fn, tx⟩ := a
          simp only [processItems]
          rw [ih rs (by simpa using h)]
          cases r with
          | none =>
              simp [List.countP_cons, List.zip_cons_cons,
                List.filterMap_cons]
          | some m =>
              simp [List.countP_cons, List.zip_cons_cons,
                List.filterMap_cons]

/-- Claim C4.  For a batch task the worker has claimed (so its counters
and errors list are still pristine), processing with per-item engine
results res behaves as follows: a per-item failure contributes its
(filename, message) pair to errors while later items are still processed
(errors equals the filtered zip of all items with all results, and
processed_files counts all successful results); the terminal status is
COMPLETED exactly when every file was processed or at least one was, and
FAILED exactly when none was processed and the batch was non-empty; an
exception escaping the per-item loop (failed initialization or failed
directory creation) appends the synthetic ("batch_process", message)
entry and forces FAILED. -/
theorem C4_batch_processing {ug : Nat → String} (hug : UGOk ug)
    {s : SysState} {tid : String} {b : BatchTTSTask} (hs : Reach ug s)
    (hw : s.worker = some tid)
    (hl : lookupTask s.tasks tid = some (Task.batch b))
    (o : BatchOutcome) (t1 t2 : ℚ) :
    (∀ m, o = BatchOutcome.initFail m →
      (processBatchTask b o t1 t2).errors = [("batch_process", m)] ∧
      (processBatchTask b o t1 t2).status = TaskStatus.failed) ∧
    (∀ m, o = BatchOutcome.mkdirFail m →
      (processBatchTask b o t1 t2).errors = [("batch_process", m)] ∧
      (processBatchTask b o t1 t2).status = TaskStatus.failed) ∧
    (∀ res, o = BatchOutcome.run res → res.length = b.speeches.length →
      (processBatchTask b o t1 t2).processed_files =
        res.countP (fun r => r.isNone) ∧
      (processBatchTask b o t1 t2).errors =
        (b.speeches.zip res).filterMap
          (fun pr => Option.map (fun m => (pr.1.1, m)) pr.2) ∧
      ((processBatchTask b o t1 t2).status = TaskStatus.completed ↔
        (res.countP (fun r => r.isNone) = b.total_files ∨
         0 < res.countP (fun r => r.isNone))) ∧
      ((processBatchTask b o t1 t2).status = TaskStatus.failed ↔
        (res.countP (fun r => r.isNone) = 0 ∧ b.total_files ≠ 0))) := by
  have hInv := invReach hug hs
  obtain ⟨tw, hlw, hpw, huw⟩ := hInv.2.2.1 tid hw
  rw [hl] at hlw
  obtain rfl : Task.batch b = tw := Option.some.inj hlw
  obtain ⟨hst, hen, hpf, herr, htot⟩ := huw
  refine ⟨?_, ?_, ?_⟩
  · intro m hm
    subst hm
    simp [processBatchTask, herr]
  · intro m hm
    subst hm
    simp [processBatchTask, herr]
  · intro res hm hlen
    subst hm
    simp only [processBatchTask, processItems_spec b.speeches res hlen,
      hpf, herr, Nat.zero_add, List.nil_append]
    by_cases hc1 : res.countP (fun r => r.isNone) = b.total_files
    · rw [if_pos hc1]
      refine ⟨rfl, rfl, ?_, ?_⟩
      · simp [hc1]
      · constructor
        · intro h; cases h
        · intro h
          exact absurd hc1 (by omega)
    · rw [if_neg hc1]
      by_cases hc2 : 0 < res.countP (fun r => r.isNone)
      · rw [if_pos hc2]
        refine ⟨rfl, rfl, ?_, ?_⟩
        · simp [hc2]
        · constructor
          · intro h; cases h
          · intro h; omega
      · rw [if_neg hc2]
        refine ⟨rfl, rfl, ?_, ?_⟩
        · constructor
          · intro h; cases h
          · intro h
            rcases h with h | h
            · exact absurd h hc1
            · exact absurd h hc2
        · constructor
          · intro _
            refine ⟨by omega, ?_⟩
            intro htot0
            exact hc1 (by omega)
          · intro _; rfl

/-- Witness for C4 at a concrete two-item batch whose second item fails:
one file processed, one (filename, error) entry recorded, terminal status
COMPLETED under the partial-success policy. -/
theorem C4_batch_processing_witness :
    UGOk ugW ∧ Reach ugW wB2 ∧ wB2.worker = some idB ∧
    lookupTask wB2.tasks idB = some (Task.batch batchB1) ∧
    batchB2.processed_files = 1 ∧
    batchB2.errors = [("b.wav", "boom")] ∧
    batchB2.status = TaskStatus.completed := by
  have h := C4_batch_processing ugW_ok reach_wB2 rfl
    (show lookupTask wB2.tasks idB = some (Task.batch batchB1) from rfl)
    (BatchOutcome.run [none, some "boom"]) 2 3
  obtain ⟨hproc, herr, hcomp, hfail⟩ := h.2.2 [none, some "boom"] rfl rfl
  refine ⟨ugW_ok, reach_wB2, rfl, rfl, ?_, ?_, ?_⟩
  · exact hproc.trans (by rfl)
  · exact herr.trans (by rfl)
  · exact hcomp.mpr (Or.inr (by norm_num))

/-- Claim C5.  For a single task the worker has claimed: a successful
engine call ends it COMPLETED with end_time set and error still null; a
failing engine call, or a failing lazy model initialization, ends it
FAILED with error equal to the exception message and end_time set; in
every outcome the result is an ordinary state of the system (no exception
escapes the worker: the run is a legal step for either persistence
outcome), the terminal record is stored in the registry under the task
id, and when the write succeeds the durable file holds the snapshot taken
after the attempt. -/
theorem C5_single_processing {ug : Nat → String} (hug : UGOk ug)
    {s : SysState} {tid : String} {t : TTSTask} (hs : Reach ug s)
    (hw : s.worker = some tid)
    (hl : lookupTask s.tasks tid = some (Task.single t))
    (o : SingleOutcome) (t1 t2 : ℚ) :
    (o = SingleOutcome.engineOk →
      (processTask t o t1 t2).status = TaskStatus.completed ∧
      (processTask t o t1 t2).end_time = some t2 ∧
      (processTask t o t1 t2).error = none) ∧
    (∀ m, o = SingleOutcome.engineFail m →
      (processTask t o t1 t2).status = TaskStatus.failed ∧
      (processTask t o t1 t2).error = some m ∧
      (processTask t o t1 t2).end_time = some t2) ∧
    (∀ m, o = SingleOutcome.initFail m →
      (processTask t o t1 t2).status = TaskStatus.failed ∧
      (processTask t o t1 t2).error = some m ∧
      (processTask t o t1 t2).end_time = some t2) ∧
    (∀ sv : Bool, s.now ≤ t1 → t1 ≤ t2 →
      Step ug s
        { tasks := updateKey tid
            (fun _ => Task.single (processTask t o t1 t2)) s.tasks,
          file := maybeSave sv
            (updateKey tid (fun _ => Task.single (processTask t o t1 t2))
              s.tasks) s.file,
          now := t2, uuidCtr := s.uuidCtr, worker := none } ∧
      lookupTask (updateKey tid
        (fun _ => Task.single (processTask t o t1 t2)) s.tasks) tid =
        some (Task.single (processTask t o t1 t2)) ∧
      maybeSave true (updateKey tid
        (fun _ => Task.single (processTask t o t1 t2)) s.tasks) s.file =
        some (saveTasks (updateKey tid
          (fun _ => Task.single (processTask t o t1 t2)) s.tasks))) := by
  have hInv := invReach hug hs
  obtain ⟨tw, hlw, hpw, huw⟩ := hInv.2.2.1 tid hw
  rw [hl] at hlw
  obtain rfl : Task.single t = tw := Option.some.inj hlw
  obtain ⟨hst, hen, herr⟩ := huw
  refine ⟨?_, ?_, ?_, ?_⟩
  · intro hm
    subst hm
    simp [processTask, herr]
  · intro m hm
    subst hm
    simp [processTask]
  · intro m hm
    subst hm
    simp [processTask]
  · intro sv h1 h2
    refine ⟨Step.op (OpStep.runSingle s tid t o t1 t2 sv hw hl h1 h2),
      ?_, rfl⟩
    rw [lookupTask_updateKey_self, hl, Option.map_some']

/-- Witness for C5: the engine throwing "device busy" on the claimed
single task yields status FAILED, error "device busy", end_time set, a
legal worker step, and a persisted snapshot. -/
theorem C5_single_processing_witness :
    UGOk ugW ∧ Reach ugW wS2 ∧ wS2.worker = some idA ∧
    lookupTask wS2.tasks idA = some (Task.single taskA1) ∧
    taskA2.status = TaskStatus.failed ∧
    taskA2.error = some "device busy" ∧
    taskA2.end_time = some 3 ∧
    Step ugW wS2 wS3 ∧
    wS3.file = some (saveTasks wS3.tasks) := by
  have h := C5_single_processing ugW_ok reach_wS2 rfl
    (show lookupTask wS2.tasks idA = some (Task.single taskA1) from rfl)
    (SingleOutcome.engineFail "device busy") 2 3
  obtain ⟨hstat, herr2, hend⟩ := h.2.1 "device busy" rfl
  refine ⟨ugW_ok, reach_wS2, rfl, rfl, hstat, herr2, hend, ?_, rfl⟩
  exact (h.2.2.2 true (by norm_num [wS2]) (by norm_num)).1

/-- Claim C6.  Along the operations of a running store (creations, the
worker's claim, the worker's processing), the status of every record
either stays unchanged or advances one step along
PENDING - PROCESSING - terminal: a step either preserves the status,
moves it from PENDING to PROCESSING, or moves it from PROCESSING to
COMPLETED or FAILED.  In particular no record ever returns to PENDING
and COMPLETED and FAILED admit no further transition. -/
theorem C6_status_forward {ug : Nat → String} (hug : UGOk ug)
    {s s' : SysState} (hs : Reach ug s) (hstep : OpStep ug s s')
    {tid : String} {t t' : Task} (hl : lookupTask s.tasks tid = some t)
    (hl' : lookupTask s'.tasks tid = some t') :
    t'.statusOf = t.statusOf ∨
    (t.statusOf = TaskStatus.pending ∧
     t'.statusOf = TaskStatus.processing) ∨
    (t.statusOf = TaskStatus.processing ∧
     (t'.statusOf = TaskStatus.completed ∨
      t'.statusOf = TaskStatus.failed)) :=
  statusEvolve hug (invReach hug hs) hstep hl hl'

/-- Witness for C6 at the claim step of a concrete execution: the task
moves from PENDING to PROCESSING. -/
theorem C6_status_forward_witness :
    UGOk ugW ∧ Reach ugW wS1 ∧ OpStep ugW wS1 wS2 ∧
    lookupTask wS1.tasks idA = some (Task.single taskA) ∧
    lookupTask wS2.tasks idA = some (Task.single taskA1) ∧
    ((Task.single taskA1).statusOf = (Task.single taskA).statusOf ∨
     ((Task.single taskA).statusOf = TaskStatus.pending ∧
      (Task.single taskA1).statusOf = TaskStatus.processing) ∨
     ((Task.single taskA).statusOf = TaskStatus.processing ∧
      ((Task.single taskA1).statusOf = TaskStatus.completed ∨
       (Task.single taskA1).statusOf = TaskStatus.failed))) :=
  ⟨ugW_ok, reach_wS1, step_wS2, rfl, rfl,
   C6_status_forward ugW_ok reach_wS1 step_wS2
     (show lookupTask wS1.tasks idA = some (Task.single taskA) from rfl)
     (show lookupTask wS2.tasks idA = some (Task.single taskA1) from rfl)⟩

/-- Claim C7.  FIFO scheduling.  First, the worker's scan returns the
first record in insertion order whose status is PENDING, so with an
earlier record tid1 still PENDING it can never return a later record
tid2.  Second, along any in-process execution from a reachable state in
which tid1 was inserted before tid2 and tid2 is PENDING, whenever tid2
has been claimed (is no longer PENDING), tid1 is no longer PENDING
either: the worker claims the earlier task strictly before the later
one. -/
theorem C7_fifo_order :
    (∀ (l1 l2 l3 : List (String × Task)) (tid1 tid2 : String)
       (t1r t2r : Task),
      (((l1 ++ [(tid1, t1r)] ++ l2 ++ [(tid2, t2r)] ++ l3).map
        Prod.fst).Nodup) →
      t1r.statusOf = TaskStatus.pending →
      scanPending (l1 ++ [(tid1, t1r)] ++ l2 ++ [(tid2, t2r)] ++ l3) ≠
        some tid2) ∧
    (∀ ug : Nat → String, UGOk ug → ∀ s0 s : SysState, Reach ug s0 →
      OpSteps ug s0 s → ∀ (tid1 tid2 : String) (t02 : Task),
      keyBefore tid1 tid2 s0.tasks →
      lookupTask s0.tasks tid2 = some t02 →
      t02.statusOf = TaskStatus.pending →
      ∀ x2, lookupTask s.tasks tid2 = some x2 →
        x2.statusOf ≠ TaskStatus.pending →
      ∀ x1, lookupTask s.tasks tid1 = some x1 →
        x1.statusOf ≠ TaskStatus.pending) :=
  ⟨fun l1 l2 l3 _ _ _ _ hnd hp => scanPending_not_later l1 l2 l3 hnd hp,
   fun _ hug _ _ h0 hsteps _ _ _ hb hl2 hp2 =>
     fifo_trace hug h0 hsteps hb hl2 hp2⟩

/-- Witness for C7 on a concrete execution with two pending single
tasks: the scan cannot pick the later one, and after the run in which
the later task has been claimed, the earlier one is no longer pending
(it was claimed and completed first). -/
theorem C7_fifo_order_witness :
    (((([] : List (String × Task)) ++ [(idA, Task.single taskA)] ++ [] ++
        [(idA2, Task.single taskF2)] ++ []).map Prod.fst).Nodup ∧
     (Task.single taskA).statusOf = TaskStatus.pending ∧
     scanPending ([] ++ [(idA, Task.single taskA)] ++ [] ++
        [(idA2, Task.single taskF2)] ++ []) ≠ some idA2) ∧
    (UGOk ugW ∧ Reach ugW wF2 ∧ OpSteps ugW wF2 wF5 ∧
     keyBefore idA idA2 wF2.tasks ∧
     lookupTask wF2.tasks idA2 = some (Task.single taskF2) ∧
     (Task.single taskF2).statusOf = TaskStatus.pending ∧
     lookupTask wF5.tasks idA2 = some (Task.single taskF2p) ∧
     (Task.single taskF2p).statusOf ≠ TaskStatus.pending ∧
     lookupTask wF5.tasks idA = some (Task.single taskAok) ∧
     (Task.single taskAok).statusOf ≠ TaskStatus.pending) := by
  have hnd : ((([] : List (String × Task)) ++ [(idA, Task.single taskA)]
      ++ [] ++ [(idA2, Task.single taskF2)] ++ []).map Prod.fst).Nodup := by
    decide
  constructor
  · exact ⟨hnd, rfl,
      C7_fifo_order.1 [] [] [] idA idA2 (Task.single taskA)
        (Task.single taskF2) hnd rfl⟩
  · refine ⟨ugW_ok, reach_wF2, opSteps_wF2_wF5,
      ⟨[], Task.single taskA, [], Task.single taskF2, [], rfl⟩,
      rfl, rfl, rfl, by decide, rfl, ?_⟩
    exact C7_fifo_order.2 ugW ugW_ok wF2 wF5 reach_wF2 opSteps_wF2_wF5
      idA idA2 (Task.single taskF2)
      ⟨[], Task.single taskA, [], Task.single taskF2, [], rfl⟩
      rfl rfl (Task.single taskF2p) rfl (by decide)
      (Task.single taskAok) rfl

/-- Claim C8.  process_time is none exactly when start_time or end_time
is unset; when both are set it equals end_time - start_time rounded to
two decimal places; and on every record of every reachable state a
defined process_time is nonnegative. -/
theorem C8_process_time_def :
    (∀ t : Task,
      (t.process_time = none ↔ t.startOf = none ∨ t.endOf = none)) ∧
    (∀ (t : Task) (a c : ℚ), t.startOf = some a → t.endOf = some c →
      t.process_time = some (round2 (c - a))) ∧
    (∀ ug : Nat → String, UGOk ug → ∀ s : SysState, Reach ug s →
      ∀ p ∈ s.tasks, ∀ v : ℚ, p.2.process_time = some v → 0 ≤ v) := by
  refine ⟨process_time_none_iff, fun t a c h1 h2 => process_time_some h1 h2,
    ?_⟩
  intro ug hug s hs p hp v hv
  have hInv := invReach hug hs
  cases hstart : p.2.startOf with
  | none =>
      rw [(process_time_none_iff p.2).mpr (Or.inl hstart)] at hv
      cases hv
  | some a =>
      cases hend : p.2.endOf with
      | none =>
          rw [(process_time_none_iff p.2).mpr (Or.inr hend)] at hv
          cases hv
      | some c =>
          have hle := hInv.1.2.2.2 p hp a c hstart hend
          have hf := process_time_some hstart hend
          rw [hv] at hf
          obtain rfl : v = round2 (c - a) := Option.some.inj hf
          exact round2_nonneg (by linarith)

/-- Witness for C8 on the completed concrete task: its process_time is
the rounded difference of its timestamps and is nonnegative. -/
theorem C8_process_time_def_witness :
    UGOk ugW ∧ Reach ugW wS3 ∧
    (idA, Task.single taskA2) ∈ wS3.tasks ∧
    (Task.single taskA2).process_time = some (round2 (3 - 2)) ∧
    0 ≤ round2 (3 - 2) :=
  ⟨ugW_ok, reach_wS3,
   show (idA, Task.single taskA2) ∈ [(idA, Task.single taskA2)] from
     List.mem_singleton.mpr rfl,
   rfl,
   C8_process_time_def.2.2 ugW ugW_ok wS3 reach_wS3
     (idA, Task.single taskA2)
     (show (idA, Task.single taskA2) ∈ [(idA, Task.single taskA2)] from
       List.mem_singleton.mpr rfl)
     (round2 (3 - 2)) rfl⟩

/-- Claim C9.  In every reachable state of the store (across saves,
restarts and loads) the registry's keys are pairwise distinct, and both
id generators produce a fresh key: the single-task id built from the
current registry size differs from every present key for every timestamp,
and the next uuid draw differs from every present key.  Hence a creation
call never overwrites an existing record and task_id identifies a record
for the lifetime of the store. -/
theorem C9_task_id_unique {ug : Nat → String} (hug : UGOk ug)
    {s : SysState} (hs : Reach ug s) :
    ((s.tasks.map Prod.fst).Nodup) ∧
    (∀ tm, mkSingleId tm s.tasks.length ∉ s.tasks.map Prod.fst) ∧
    ug s.uuidCtr ∉ s.tasks.map Prod.fst := by
  have hInv := invReach hug hs
  exact ⟨hInv.1.1, fun tm => single_id_fresh hug hInv.1.2.1 tm,
    batch_id_fresh hug hInv.1.2.1⟩

/-- Witness for C9 at a concrete reachable state with two tasks. -/
theorem C9_task_id_unique_witness :
    UGOk ugW ∧ Reach ugW wF2 ∧
    ((wF2.tasks.map Prod.fst).Nodup) ∧
    mkSingleId 7 wF2.tasks.length ∉ wF2.tasks.map Prod.fst ∧
    ugW wF2.uuidCtr ∉ wF2.tasks.map Prod.fst := by
  have h := C9_task_id_unique ugW_ok reach_wF2
  exact ⟨ugW_ok, reach_wF2, h.1, h.2.1 7, h.2.2⟩

/-- Claim C10.  A batch task created with an empty speeches mapping has
total_files = 0; when the worker runs it (the per-item loop over no
items), it terminates COMPLETED with processed_files = 0 and an empty
errors list: the zero-item batch counts as fully successful, not as the
zero-successes FAILED case. -/
theorem C10_empty_batch {ug : Nat → String} (hug : UGOk ug)
    {s : SysState} {tid : String} {b : BatchTTSTask} (hs : Reach ug s)
    (hw : s.worker = some tid)
    (hl : lookupTask s.tasks tid = some (Task.batch b))
    (hsp : b.speeches = []) (t1 t2 : ℚ) :
    (processBatchTask b (BatchOutcome.run []) t1 t2).status =
      TaskStatus.completed ∧
    (processBatchTask b (BatchOutcome.run []) t1 t2).processed_files = 0 ∧
    (processBatchTask b (BatchOutcome.run []) t1 t2).errors = [] := by
  have hInv := invReach hug hs
  obtain ⟨tw, hlw, hpw, huw⟩ := hInv.2.2.1 tid hw
  rw [hl] at hlw
  obtain rfl : Task.batch b = tw := Option.some.inj hlw
  obtain ⟨hst, hen, hpf, herr, htot⟩ := huw
  have htot0 : b.total_files = 0 := by rw [htot, hsp]; rfl
  simp [processBatchTask, hsp, processItems, hpf, herr, htot0]

/-- Witness for C10 on the concrete zero-item batch execution: it ends
COMPLETED with no progress counter and no errors. -/
theorem C10_empty_batch_witness :
    UGOk ugW ∧ Reach ugW wE2 ∧ wE2.worker = some idB ∧
    lookupTask wE2.tasks idB = some (Task.batch batchE1) ∧
    batchE1.speeches = [] ∧
    batchE2.status = TaskStatus.completed ∧
    batchE2.processed_files = 0 ∧
    batchE2.errors = [] := by
  have h := C10_empty_batch ugW_ok reach_wE2 rfl
    (show lookupTask wE2.tasks idB = some (Task.batch batchE1) from rfl)
    (show batchE1.speeches = [] from rfl) 2 3
  exact ⟨ugW_ok, reach_wE2, rfl, rfl, rfl, h.1, h.2.1, h.2.2⟩

end IndexTTSQueue
